import Mathlib

/-!
# Shallow embedding of `parser/tracked_buffer.go` (sqldef)

`TrackedBuffer` rebuilds a query from the AST.  `Myprintf` scans a format
string, copies literal spans to the buffer and dispatches on the directive
character that follows each `%`; `WriteNode` calls `Myprintf("%v", node)` and
returns its receiver.

A Go `string` is a byte sequence and `format[i]` indexes bytes, so strings and
`[]byte` are both `List UInt8`.  A Go panic is an explicit `Result.panic`
carrying the buffer content at the point of the panic.
-/

namespace Sqldef

/-! ## Data model -/

/-- Content of the embedded `*bytes.Buffer` of a `TrackedBuffer`. -/
abbrev TrackedBuffer := List UInt8

/-- Bytes of a Go string literal (Go source text is UTF-8). -/
def goString (s : String) : List UInt8 :=
  s.data.flatMap String.utf8EncodeChar

mutual
/-- Dynamic value held by an `interface{}` argument of `Myprintf`, by dynamic
type: `byte` (`uint8`), `rune` (`int32`, kept as an integer and read modulo
`2^32` where the code converts), `[]byte`, `string`, a type implementing
`SQLNode`, or any other type (`nil` included), known by the name `%T` prints. -/
inductive Value where
  | byte (v : UInt8)
  | rune (v : Int)
  | bytes (v : List UInt8)
  | string (v : List UInt8)
  | node (v : SQLNode)
  | other (typeName : String)
/-- Modelled from the spec: the `SQLNode` interface is declared outside
`tracked_buffer.go`.  By §4.2 a node formats itself "by emitting one or more
`interpret` calls against the given Renderer, possibly recursing into child
nodes via the sub-node directive"; a node is the sequence of
`Myprintf(format, values...)` calls its `Format` makes on the buffer it is
given, together with the name of its dynamic type. -/
inductive SQLNode where
  | mk (typeName : String) (calls : List (List UInt8 × List Value))
end

/-- Panic values raised by `Myprintf`. -/
inductive Fault where
  /-- Go `panic(fmt.Sprintf("unexpected TrackedBuffer type %T", v))`, with the type name. -/
  | unexpectedType (typeName : String)
  /-- Go `panic("unexpected")`. -/
  | unexpected
  /-- Run-time bounds error of `format[i]`. -/
  | formatIndex (index length : Nat)
  /-- Run-time bounds error of `values[fieldnum]`. -/
  | valuesIndex (index length : Nat)
  /-- Run-time error of a failed type assertion `x.(T)`: the dynamic type of
  `x` and the asserted type. -/
  | typeAssertion (dynamicType asserted : String)
  deriving DecidableEq, Repr

/-- Outcome of a call: normal return, or a panic, each with the buffer content
at that point. -/
inductive Result where
  | ok (buf : TrackedBuffer)
  | panic (buf : TrackedBuffer) (fault : Fault)
  deriving DecidableEq, Repr

/-- Buffer content when the call returned or panicked. -/
def Result.buf : Result → TrackedBuffer
  | .ok buf => buf
  | .panic buf _ => buf

/-- The panic value, if the call panicked. -/
def Result.fault : Result → Option Fault
  | .ok _ => none
  | .panic _ fault => some fault

/-- The call returned normally. -/
def Result.isOk : Result → Bool
  | .ok _ => true
  | .panic _ _ => false

/-- Sequencing of statements: the second runs on the buffer left by the first
unless the first panicked. -/
def Result.andThen : Result → (TrackedBuffer → Result) → Result
  | .ok buf, k => k buf
  | .panic buf fault, _ => .panic buf fault

/-- Name of the dynamic type of a value, as `%T` prints it. -/
def Value.typeName : Value → String
  | .byte _ => "uint8"
  | .rune _ => "int32"
  | .bytes _ => "[]uint8"
  | .string _ => "string"
  | .node (.mk typeName _) => typeName
  | .other typeName => typeName

mutual
/-- Height of a node tree: one more than the height of the deepest node among
the arguments of its `Myprintf` calls. -/
def SQLNode.depth : SQLNode → Nat
  | .mk _ calls => callsDepth calls + 1
/-- Height of the deepest node among the arguments of a sequence of calls. -/
def callsDepth : List (List UInt8 × List Value) → Nat
  | [] => 0
  | (_, values) :: rest => max (valuesDepth values) (callsDepth rest)
/-- Height of the deepest node in an argument list. -/
def valuesDepth : List Value → Nat
  | [] => 0
  | .node n :: rest => max n.depth (valuesDepth rest)
  | _ :: rest => valuesDepth rest
end

/-! ## `bytes.Buffer` and `unicode/utf8` (Go standard library) -/

/-- Go `byte(x)` for an integer `x`: the low eight bits.  (In `AppendRune`
below, `r >>> (k : Nat)` on `Int` is the arithmetic shift of Go's `r>>k`.) -/
def toByte (x : Int) : UInt8 := (x % 256).toNat.toUInt8

/-- Go `uint32(r)` for `r : int32`. -/
def toUint32 (r : Int) : Nat := (r % 4294967296).toNat

/-- Constants of `unicode/utf8`. -/
def RuneError : Int := 0xFFFD
def MaxRune : Nat := 0x10FFFF
def surrogateMin : Nat := 0xD800
def surrogateMax : Nat := 0xDFFF
def rune1Max : Nat := 0x7F
def rune2Max : Nat := 0x7FF
def rune3Max : Nat := 0xFFFF
def tx : UInt8 := 0x80
def t2 : UInt8 := 0xC0
def t3 : UInt8 := 0xE0
def t4 : UInt8 := 0xF0
def maskx : UInt8 := 0x3F

/-- Go `utf8.AppendRune(p, r)`: the UTF-8 encoding of `r`, or of `RuneError` when
`r` is out of range or a surrogate. -/
def AppendRune (p : List UInt8) (r : Int) : List UInt8 :=
  let i := toUint32 r
  if i ≤ rune1Max then p ++ [toByte r]
  else if i ≤ rune2Max then
    p ++ [t2 ||| toByte (r >>> (6 : Nat)), tx ||| (toByte r &&& maskx)]
  else if i > MaxRune ∨ (surrogateMin ≤ i ∧ i ≤ surrogateMax) then
    let r := RuneError
    p ++ [t3 ||| toByte (r >>> (12 : Nat)), tx ||| (toByte (r >>> (6 : Nat)) &&& maskx), tx ||| (toByte r &&& maskx)]
  else if i ≤ rune3Max then
    p ++ [t3 ||| toByte (r >>> (12 : Nat)), tx ||| (toByte (r >>> (6 : Nat)) &&& maskx), tx ||| (toByte r &&& maskx)]
  else
    p ++ [t4 ||| toByte (r >>> (18 : Nat)), tx ||| (toByte (r >>> (12 : Nat)) &&& maskx),
      tx ||| (toByte (r >>> (6 : Nat)) &&& maskx), tx ||| (toByte r &&& maskx)]

/-- Go `buf.WriteString(s)`. -/
def TrackedBuffer.WriteString (buf : TrackedBuffer) (s : List UInt8) : TrackedBuffer := buf ++ s

/-- Go `buf.Write(p)`. -/
def TrackedBuffer.Write (buf : TrackedBuffer) (p : List UInt8) : TrackedBuffer := buf ++ p

/-- Go `buf.WriteByte(c)`. -/
def TrackedBuffer.WriteByte (buf : TrackedBuffer) (c : UInt8) : TrackedBuffer := buf ++ [c]

/-- Go `buf.WriteRune(r)`: a single byte when `uint32(r) < utf8.RuneSelf`, else
`utf8.AppendRune`. -/
def TrackedBuffer.WriteRune (buf : TrackedBuffer) (r : Int) : TrackedBuffer :=
  if toUint32 r < 0x80 then buf.WriteByte (toByte r) else AppendRune buf r

/-- Go `NewTrackedBuffer()`: an empty buffer. -/
def NewTrackedBuffer : TrackedBuffer := []

/-! ## `Myprintf` -/

/-- The inner loop `for i < end && format[i] != '%' { i++ }`, returning the
final `i`.  `fuel` bounds the iterations; `end - i` suffices. -/
def skipLiteral (format : List UInt8) : (fuel i : Nat) → Nat
  | 0, i => i
  | fuel + 1, i =>
    if h : i < format.length then
      if format[i] ≠ '%'.toUInt8 then skipLiteral format fuel (i + 1) else i
    else i

/-- The slice `format[lasti:i]`. -/
def slice (format : List UInt8) (lasti i : Nat) : List UInt8 :=
  (format.take i).drop lasti

/-- The `switch format[i]` statement for directive character `c`, with
`fmtNode` standing for the dynamic call `node.Format(buf)`. -/
def Myprintf.directive (fmtNode : SQLNode → TrackedBuffer → Result) (c : UInt8)
    (values : List Value) (fieldnum : Nat) (buf : TrackedBuffer) : Result :=
  if c = 'c'.toUInt8 then
    match values[fieldnum]? with
    | none => .panic buf (.valuesIndex fieldnum values.length)
    | some (.byte v) => .ok (buf.WriteByte v)
    | some (.rune v) => .ok (buf.WriteRune v)
    | some v => .panic buf (.unexpectedType v.typeName)
  else if c = 's'.toUInt8 then
    match values[fieldnum]? with
    | none => .panic buf (.valuesIndex fieldnum values.length)
    | some (.bytes v) => .ok (buf.Write v)
    | some (.string v) => .ok (buf.WriteString v)
    | some v => .panic buf (.unexpectedType v.typeName)
  else if c = 'v'.toUInt8 then
    match values[fieldnum]? with
    | none => .panic buf (.valuesIndex fieldnum values.length)
    | some (.node node) => fmtNode node buf
    | some v => .panic buf (.typeAssertion v.typeName "parser.SQLNode")
  else if c = 'a'.toUInt8 then
    match values[fieldnum]? with
    | none => .panic buf (.valuesIndex fieldnum values.length)
    | some (.string v) => .ok (buf.WriteString v)
    | some v => .panic buf (.typeAssertion v.typeName "string")
  else
    .panic buf .unexpected

/-- The outer loop of `Myprintf` from the state `(i, fieldnum, buf)`.  `fuel`
bounds the iterations; every iteration that continues advances `i` by at least
two, so `end - i` suffices, and with that much fuel the case `fuel = 0` is the
loop exit `i >= end`. -/
def Myprintf.loop (fmtNode : SQLNode → TrackedBuffer → Result) (format : List UInt8)
    (values : List Value) : (fuel i fieldnum : Nat) → TrackedBuffer → Result
  | 0, _, _, buf => .ok buf
  | fuel + 1, i, fieldnum, buf =>
    let len := format.length
    if i < len then
      let lasti := i
      let i := skipLiteral format (len - i) i
      let buf := if i > lasti then buf.WriteString (slice format lasti i) else buf
      if i ≥ len then .ok buf
      else
        let i := i + 1
        match format[i]? with
        | none => .panic buf (.formatIndex i len)
        | some c =>
          (Myprintf.directive fmtNode c values fieldnum buf).andThen
            (Myprintf.loop fmtNode format values fuel (i + 1) (fieldnum + 1))
    else .ok buf

/-- Go `Myprintf` with `fmtNode` for the dynamic call `node.Format(buf)`. -/
def Myprintf.run (fmtNode : SQLNode → TrackedBuffer → Result) (buf : TrackedBuffer)
    (format : List UInt8) (values : List Value) : Result :=
  Myprintf.loop fmtNode format values format.length 0 0 buf

/-- The calls a node's `Format` makes, in order; a panic ends the sequence. -/
def runCalls (myprintf : TrackedBuffer → List UInt8 → List Value → Result) :
    List (List UInt8 × List Value) → TrackedBuffer → Result
  | [], buf => .ok buf
  | (format, values) :: rest, buf =>
    (myprintf buf format values).andThen (runCalls myprintf rest)

/-- Go `node.Format(buf)` for a node tree of height at most `depth`. -/
def SQLNode.FormatN : (depth : Nat) → SQLNode → TrackedBuffer → Result
  | 0, _, buf => .ok buf
  | depth + 1, .mk _ calls, buf => runCalls (Myprintf.run (SQLNode.FormatN depth)) calls buf

/-- Go `node.Format(buf)`: the node's calls to `Myprintf`, run on `buf`. -/
def SQLNode.Format (node : SQLNode) (buf : TrackedBuffer) : Result :=
  SQLNode.FormatN node.depth node buf

/-- Go `buf.Myprintf(format, values...)`. -/
def Myprintf (buf : TrackedBuffer) (format : List UInt8) (values : List Value) : Result :=
  Myprintf.run SQLNode.Format buf format values

/-- Go `buf.WriteNode(node)`: `buf.Myprintf("%v", node)` and then `return buf`.
The returned `*TrackedBuffer` is the receiver, so the value returned is the
buffer as `Myprintf` left it; a panic of `Myprintf` is a panic of `WriteNode`. -/
def WriteNode (buf : TrackedBuffer) (node : SQLNode) : Result :=
  (Myprintf buf (goString "%v") [.node node]).andThen (fun buf => .ok buf)

/-- Byte-at-a-time reading of the loop of `Myprintf` on the part of the format
not yet scanned: a byte other than `%` is appended, `%` at the very end is the
bounds error of `format[i]` (at `i = len`), and `%` followed by `c` runs the
directive `c` on `values[fieldnum]`.  `Myprintf.loop_eq_scan` shows the loop
computes this. -/
def Myprintf.scan (fmtNode : SQLNode → TrackedBuffer → Result) (len : Nat) (values : List Value) :
    List UInt8 → Nat → TrackedBuffer → Result
  | [], _, buf => .ok buf
  | [c], _, buf =>
    if c ≠ '%'.toUInt8 then .ok (buf ++ [c]) else .panic buf (.formatIndex len len)
  | c :: d :: rest, fieldnum, buf =>
    if c ≠ '%'.toUInt8 then Myprintf.scan fmtNode len values (d :: rest) fieldnum (buf ++ [c])
    else
      (Myprintf.directive fmtNode d values fieldnum buf).andThen
        (Myprintf.scan fmtNode len values rest (fieldnum + 1))

/-- Number of directives (`%` followed by a character) in a format. -/
def markers : List UInt8 → Nat
  | [] => 0
  | [_] => 0
  | c :: d :: rest => if c ≠ '%'.toUInt8 then markers (d :: rest) else markers rest + 1

/-- The result with `pre` put in front of the buffer content. -/
def Result.prepend (pre : TrackedBuffer) : Result → Result
  | .ok buf => .ok (pre ++ buf)
  | .panic buf fault => .panic (pre ++ buf) fault

/-- A rendering function acts the same whatever the buffer already holds: on
`pre ++ buf` it does what it does on `buf`, with `pre` in front. -/
def Framed (f : SQLNode → TrackedBuffer → Result) : Prop :=
  ∀ n pre buf, f n (pre ++ buf) = (f n buf).prepend pre

/-- The template `L0 %v L1 %v ... %v Lk`, given `L0` and, for each marker, the
node it takes with the literal span that follows the marker. -/
def nodeTemplate (lit0 : List UInt8) (items : List (SQLNode × List UInt8)) : List UInt8 :=
  lit0 ++ items.flatMap (fun it => goString "%v" ++ it.2)

/-- The text `L0 ++ render(n1) ++ L1 ++ ... ++ render(nk) ++ Lk`, where
`render(n)` is what `n.Format` leaves in an empty buffer. -/
def nodeOutput (lit0 : List UInt8) (items : List (SQLNode × List UInt8)) : List UInt8 :=
  lit0 ++ items.flatMap (fun it => (it.1.Format []).buf ++ it.2)

/-- The argument kinds each marker expects, as the type contract lists them:
`%c` a byte or a rune, `%s` a byte sequence or a string, `%v` a value
implementing `SQLNode`, `%a` a string. -/
def expects (c : UInt8) (v : Value) : Bool :=
  if c = 'c'.toUInt8 then
    match v with
    | .byte _ => true
    | .rune _ => true
    | _ => false
  else if c = 's'.toUInt8 then
    match v with
    | .bytes _ => true
    | .string _ => true
    | _ => false
  else if c = 'v'.toUInt8 then
    match v with
    | .node _ => true
    | _ => false
  else if c = 'a'.toUInt8 then
    match v with
    | .string _ => true
    | _ => false
  else false

/-- The four directive characters of the `switch`. -/
def supported : List UInt8 := ['c'.toUInt8, 's'.toUInt8, 'v'.toUInt8, 'a'.toUInt8]

/-- The directive characters of a format, in order: the character after each
`%` the scan stops at. -/
def directives : List UInt8 → List UInt8
  | [] => []
  | [_] => []
  | c :: d :: rest => if c ≠ '%'.toUInt8 then directives (d :: rest) else d :: directives rest

/-- The bytes a `%s` or `%a` argument contributes: the content of a string or
of a byte sequence. -/
def rawText : Value → List UInt8
  | .bytes v => v
  | .string v => v
  | _ => []

/-- The bytes a `%c`, `%s` or `%a` argument contributes: the content of a
string or of a byte sequence, the byte itself, or what `WriteRune` writes for
a rune. -/
def argText : Value → List UInt8
  | .byte v => [v]
  | .rune v => TrackedBuffer.WriteRune [] v
  | .bytes v => v
  | .string v => v
  | _ => []

/-- The rune is a Unicode scalar value: a code point that is not a surrogate. -/
def isScalarValue (r : Int) : Bool :=
  decide ((0 ≤ r ∧ r < 0xD800) ∨ (0xDFFF < r ∧ r ≤ 0x10FFFF))

/-- The UTF-8 encoding of the character `r`, for a scalar value `r`, as the
Lean core library defines it. -/
def utf8Encoding (r : Int) : List UInt8 := String.utf8EncodeChar (Char.ofNat r.toNat)

/-- The string handed to `panic` by `Myprintf` itself; the bounds errors and the
failed type assertions are run-time errors, not strings. -/
def Fault.panicString : Fault → Option String
  | .unexpectedType typeName => some ("unexpected TrackedBuffer type " ++ typeName)
  | .unexpected => some "unexpected"
  | _ => none

/-- The fault without the index and length numbers of a bounds error: the
kind of fault, and for the other faults the whole panic value. -/
def Fault.eraseIndex : Fault → Fault
  | .formatIndex _ _ => .formatIndex 0 0
  | .valuesIndex _ _ => .valuesIndex 0 0
  | fault => fault

/-- The result with the numbers of a bounds error erased: the buffer content,
whether the call returned, and the kind of fault. -/
def Result.eraseIndex : Result → Result
  | .ok buf => .ok buf
  | .panic buf fault => .panic buf fault.eraseIndex

/-- The chained call `buf.WriteNode(a).WriteNode(b)`: the second call is made
on the `*TrackedBuffer` the first returns, and is not made when the first
panics. -/
def WriteNode2 (buf : TrackedBuffer) (a b : SQLNode) : Result :=
  (WriteNode buf a).andThen (fun buf1 => WriteNode buf1 b)

/-- A span of the appended output: a byte of template text copied as it is,
or what the directive `%d` wrote for the argument `v` it consumed. -/
inductive Span where
  | literal (c : UInt8)
  | argument (directive : UInt8) (v : Value)

/-- The bytes of a span. -/
def Span.bytes : Span → List UInt8
  | .literal c => [c]
  | .argument _ v => argText v

/-- The spans of the output of a template, in order, from argument `fieldnum`
on: each template byte outside the directives is a literal span, and each
directive `%d` is the span of the argument it consumes. -/
def spans (values : List Value) : List UInt8 → Nat → List Span
  | [], _ => []
  | [c], _ => if c ≠ '%'.toUInt8 then [.literal c] else []
  | c :: d :: rest, fieldnum =>
    if c ≠ '%'.toUInt8 then .literal c :: spans values (d :: rest) fieldnum
    else
      match values[fieldnum]? with
      | some v => .argument d v :: spans values rest (fieldnum + 1)
      | none => []

/-! ## `Myprintf` with the bounds made visible

The same code once more, with `none` where a bound runs out: the inner loop
after `bound` iterations with its condition still true, the outer loop after
`bound` iterations that go on, the recursion through `Format` below `depth`
levels.  A loop that did not advance, or a recursion that did not descend,
would give `none` here. -/

/-- The inner loop `for i < end && format[i] != '%' { i++ }` run for at most
`bound` iterations: the final `i`, or `none` when the condition still holds
after `bound` iterations. -/
def skipLiteralB (format : List UInt8) : (bound i : Nat) → Option Nat
  | 0, i =>
    if h : i < format.length then
      if format[i] ≠ '%'.toUInt8 then none else some i
    else some i
  | bound + 1, i =>
    if h : i < format.length then
      if format[i] ≠ '%'.toUInt8 then skipLiteralB format bound (i + 1) else some i
    else some i

/-- The `switch format[i]` statement, where the call `node.Format(buf)` may
give `none` (its recursion ran out of depth). -/
def Myprintf.directiveB (fmtNode : SQLNode → TrackedBuffer → Option Result) (c : UInt8)
    (values : List Value) (fieldnum : Nat) (buf : TrackedBuffer) : Option Result :=
  if c = 'c'.toUInt8 then
    match values[fieldnum]? with
    | none => some (.panic buf (.valuesIndex fieldnum values.length))
    | some (.byte v) => some (.ok (buf.WriteByte v))
    | some (.rune v) => some (.ok (buf.WriteRune v))
    | some v => some (.panic buf (.unexpectedType v.typeName))
  else if c = 's'.toUInt8 then
    match values[fieldnum]? with
    | none => some (.panic buf (.valuesIndex fieldnum values.length))
    | some (.bytes v) => some (.ok (buf.Write v))
    | some (.string v) => some (.ok (buf.WriteString v))
    | some v => some (.panic buf (.unexpectedType v.typeName))
  else if c = 'v'.toUInt8 then
    match values[fieldnum]? with
    | none => some (.panic buf (.valuesIndex fieldnum values.length))
    | some (.node node) => fmtNode node buf
    | some v => some (.panic buf (.typeAssertion v.typeName "parser.SQLNode"))
  else if c = 'a'.toUInt8 then
    match values[fieldnum]? with
    | none => some (.panic buf (.valuesIndex fieldnum values.length))
    | some (.string v) => some (.ok (buf.WriteString v))
    | some v => some (.panic buf (.typeAssertion v.typeName "string"))
  else
    some (.panic buf .unexpected)

/-- What one iteration of the outer loop of `Myprintf` does from the state
`(i, fieldnum, buf)`: it ends the call (the loop condition is false, `break`,
or a panic), or goes on to the next iteration with a new state, or a bound ran
out inside it. -/
inductive Myprintf.Step where
  | exit (r : Result)
  | next (i fieldnum : Nat) (buf : TrackedBuffer)
  | unbounded

/-- One iteration of the outer loop of `Myprintf`, the loop test included.
The inner loop is given `end - i` iterations. -/
def Myprintf.iteration (fmtNode : SQLNode → TrackedBuffer → Option Result)
    (format : List UInt8) (values : List Value) (i fieldnum : Nat) (buf : TrackedBuffer) :
    Myprintf.Step :=
  let len := format.length
  if i < len then
    let lasti := i
    match skipLiteralB format (len - i) i with
    | none => .unbounded
    | some i =>
      let buf := if i > lasti then buf.WriteString (slice format lasti i) else buf
      if i ≥ len then .exit (.ok buf)
      else
        let i := i + 1
        match format[i]? with
        | none => .exit (.panic buf (.formatIndex i len))
        | some c =>
          match Myprintf.directiveB fmtNode c values fieldnum buf with
          | none => .unbounded
          | some (.ok buf) => .next (i + 1) (fieldnum + 1) buf
          | some (.panic buf fault) => .exit (.panic buf fault)
  else .exit (.ok buf)

/-- The outer loop of `Myprintf` from the state `(i, fieldnum, buf)`, with at
most `bound` iterations that go on: `none` when one more would be needed. -/
def Myprintf.loopB (fmtNode : SQLNode → TrackedBuffer → Option Result) (format : List UInt8)
    (values : List Value) : (bound i fieldnum : Nat) → TrackedBuffer → Option Result
  | 0, i, fieldnum, buf =>
    match Myprintf.iteration fmtNode format values i fieldnum buf with
    | .exit r => some r
    | .next _ _ _ => none
    | .unbounded => none
  | bound + 1, i, fieldnum, buf =>
    match Myprintf.iteration fmtNode format values i fieldnum buf with
    | .exit r => some r
    | .next i fieldnum buf => Myprintf.loopB fmtNode format values bound i fieldnum buf
    | .unbounded => none

/-- Go `Myprintf` with the outer loop given `len(format)` iterations. -/
def Myprintf.runB (fmtNode : SQLNode → TrackedBuffer → Option Result) (buf : TrackedBuffer)
    (format : List UInt8) (values : List Value) : Option Result :=
  Myprintf.loopB fmtNode format values format.length 0 0 buf

/-- The calls a node's `Format` makes, in order, each of which may give `none`. -/
def runCallsB (myprintf : TrackedBuffer → List UInt8 → List Value → Option Result) :
    List (List UInt8 × List Value) → TrackedBuffer → Option Result
  | [], buf => some (.ok buf)
  | (format, values) :: rest, buf =>
    match myprintf buf format values with
    | none => none
    | some (.ok buf) => runCallsB myprintf rest buf
    | some (.panic buf fault) => some (.panic buf fault)

/-- Go `node.Format(buf)` with at most `depth` nested calls of `Format`: `none`
when the tree is deeper. -/
def SQLNode.FormatB : (depth : Nat) → SQLNode → TrackedBuffer → Option Result
  | 0, _, _ => none
  | depth + 1, .mk _ calls, buf => runCallsB (Myprintf.runB (SQLNode.FormatB depth)) calls buf

/-- Go `buf.Myprintf(format, values...)` with at most `depth` nested calls of
`Format`. -/
def MyprintfB (depth : Nat) (buf : TrackedBuffer) (format : List UInt8) (values : List Value) :
    Option Result :=
  Myprintf.runB (SQLNode.FormatB depth) buf format values

/-- Go `buf.WriteNode(node)` with at most `depth` nested calls of `Format`. -/
def WriteNodeB (depth : Nat) (buf : TrackedBuffer) (node : SQLNode) : Option Result :=
  (MyprintfB depth buf (goString "%v") [.node node]).map
    (fun r => r.andThen (fun buf => .ok buf))

/-! ## The loop computes the byte-at-a-time scan -/

/-- Induction on a list along the recursion of `Myprintf.scan`: from the tail
and from the tail of the tail. -/
theorem list_two_step {α : Type} {motive : List α → Prop} (nil : motive [])
    (single : ∀ c, motive [c])
    (step : ∀ c d rest, motive (d :: rest) → motive rest → motive (c :: d :: rest))
    (l : List α) : motive l := by
  have key : ∀ l : List α, motive l ∧ ∀ c, motive (c :: l) := by
    intro l
    induction l with
    | nil => exact ⟨nil, single⟩
    | cons d rest ih => exact ⟨ih.2 d, fun c => step c d rest (ih.2 d) ih.1⟩
  exact (key l).1

theorem skipLiteral_eq (format : List UInt8) (fuel i : Nat) (h : format.length - i ≤ fuel) :
    skipLiteral format fuel i
      = i + ((format.drop i).takeWhile (fun c => c ≠ '%'.toUInt8)).length := by
  induction fuel generalizing i with
  | zero =>
    have hi : format.length ≤ i := by omega
    simp [skipLiteral, List.drop_eq_nil_of_le hi]
  | succ fuel ih =>
    unfold skipLiteral
    by_cases hi : i < format.length
    · have hd : format.drop i = format[i] :: format.drop (i + 1) := List.drop_eq_getElem_cons hi
      rw [dif_pos hi, hd]
      by_cases hc : format[i] = '%'.toUInt8
      · rw [if_neg (not_not.mpr hc), List.takeWhile_cons]
        simp [hc]
      · rw [if_pos hc, ih (i + 1) (by omega), List.takeWhile_cons]
        simp only [hc, decide_not, decide_False, Bool.not_false, if_true, List.length_cons]
        omega
    · rw [dif_neg hi]
      simp [List.drop_eq_nil_of_le (Nat.le_of_not_lt hi)]

theorem Myprintf.scan_cons_literal (fmtNode : SQLNode → TrackedBuffer → Result) (len : Nat)
    (values : List Value) (c : UInt8) (hc : c ≠ '%'.toUInt8) (rest : List UInt8)
    (fieldnum : Nat) (buf : TrackedBuffer) :
    Myprintf.scan fmtNode len values (c :: rest) fieldnum buf
      = Myprintf.scan fmtNode len values rest fieldnum (buf ++ [c]) := by
  cases rest with
  | nil => simp [Myprintf.scan, hc]
  | cons d rest => simp [Myprintf.scan, hc]

theorem Myprintf.scan_literal (fmtNode : SQLNode → TrackedBuffer → Result) (len : Nat)
    (values : List Value) (lit : List UInt8) (hlit : ∀ c ∈ lit, c ≠ '%'.toUInt8)
    (rest : List UInt8) (fieldnum : Nat) (buf : TrackedBuffer) :
    Myprintf.scan fmtNode len values (lit ++ rest) fieldnum buf
      = Myprintf.scan fmtNode len values rest fieldnum (buf ++ lit) := by
  induction lit generalizing buf with
  | nil => simp
  | cons c lit ih =>
    have hc : c ≠ '%'.toUInt8 := hlit c (List.mem_cons_self _ _)
    rw [List.cons_append, Myprintf.scan_cons_literal _ _ _ _ hc,
      ih (fun x hx => hlit x (List.mem_cons_of_mem _ hx))]
    simp

theorem Myprintf.scan_percent (fmtNode : SQLNode → TrackedBuffer → Result) (len : Nat)
    (values : List Value) (d : UInt8) (rest : List UInt8) (fieldnum : Nat) (buf : TrackedBuffer) :
    Myprintf.scan fmtNode len values ('%'.toUInt8 :: d :: rest) fieldnum buf
      = (Myprintf.directive fmtNode d values fieldnum buf).andThen
          (Myprintf.scan fmtNode len values rest (fieldnum + 1)) := by
  simp [Myprintf.scan]

theorem Myprintf.scan_dangling (fmtNode : SQLNode → TrackedBuffer → Result) (len : Nat)
    (values : List Value) (fieldnum : Nat) (buf : TrackedBuffer) :
    Myprintf.scan fmtNode len values ['%'.toUInt8] fieldnum buf
      = .panic buf (.formatIndex len len) := by
  simp [Myprintf.scan]

theorem dropWhile_head_percent (l : List UInt8) (x : UInt8) (r : List UInt8)
    (h : l.dropWhile (fun c => decide (c ≠ '%'.toUInt8)) = x :: r) : x = '%'.toUInt8 := by
  induction l with
  | nil => simp at h
  | cons c l ih =>
    rw [List.dropWhile_cons] at h
    by_cases hc : c = '%'.toUInt8
    · simp [hc] at h
      rw [← h.1]
    · simp [hc] at h
      exact ih (by simpa using h)

theorem Myprintf.loop_eq_scan (fmtNode : SQLNode → TrackedBuffer → Result) (format : List UInt8)
    (values : List Value) (fuel i fieldnum : Nat) (buf : TrackedBuffer)
    (h : format.length - i ≤ fuel) :
    Myprintf.loop fmtNode format values fuel i fieldnum buf
      = Myprintf.scan fmtNode format.length values (format.drop i) fieldnum buf := by
  induction fuel generalizing i fieldnum buf with
  | zero =>
    have hi : format.length ≤ i := by omega
    simp [Myprintf.loop, Myprintf.scan, List.drop_eq_nil_of_le hi]
  | succ fuel ih =>
    unfold Myprintf.loop
    by_cases hi : i < format.length
    · have hsplit := List.takeWhile_append_dropWhile (fun c => decide (c ≠ '%'.toUInt8))
        (format.drop i)
      generalize hL : (format.drop i).takeWhile (fun c => decide (c ≠ '%'.toUInt8)) = lit at hsplit
      generalize hR : (format.drop i).dropWhile (fun c => decide (c ≠ '%'.toUInt8)) = rest at hsplit
      have hlit : ∀ c ∈ lit, c ≠ '%'.toUInt8 := by
        intro c hc
        rw [← hL] at hc
        simpa using List.mem_takeWhile_imp hc
      have hskip : skipLiteral format (format.length - i) i = i + lit.length := by
        rw [skipLiteral_eq format _ i (Nat.le_refl _), hL]
      have hslice : slice format i (i + lit.length) = lit := by
        unfold slice
        rw [← List.take_drop, ← hsplit]
        simp
      have hbuf : (if i + lit.length > i then
          TrackedBuffer.WriteString buf (slice format i (i + lit.length)) else buf) = buf ++ lit := by
        by_cases hl : i + lit.length > i
        · rw [if_pos hl, hslice]; rfl
        · have : lit = [] := List.length_eq_zero.mp (by omega)
          rw [if_neg hl, this]; simp
      have hlen : lit.length + rest.length = format.length - i := by
        have := congrArg List.length hsplit
        simpa using this
      have hdrop : format.drop (i + lit.length) = rest := by
        rw [← List.drop_drop, ← hsplit]
        simp
      simp only [if_pos hi, hskip, hbuf]
      rw [← hsplit, Myprintf.scan_literal _ _ _ _ hlit]
      cases rest with
      | nil =>
        have hge : i + lit.length ≥ format.length := by simp at hlen; omega
        rw [if_pos hge]
        simp [Myprintf.scan]
      | cons x rest =>
        have hx : x = '%'.toUInt8 := dropWhile_head_percent _ x rest hR
        have hlt : ¬ i + lit.length ≥ format.length := by simp at hlen; omega
        rw [if_neg hlt]
        have hdrop1 : format.drop (i + lit.length + 1) = rest := by
          rw [← List.drop_drop, hdrop]
          simp
        have hget : format[i + lit.length + 1]? = rest.head? := by
          rw [← hdrop1, List.head?_drop]
        rw [hget, hx]
        cases rest with
        | nil =>
          have : i + lit.length + 1 = format.length := by simp at hlen; omega
          simp [Myprintf.scan, this]
        | cons d rest =>
          have hdrop2 : format.drop (i + lit.length + 1 + 1) = rest := by
            rw [← List.drop_drop, hdrop1]
            simp
          have hk : Myprintf.loop fmtNode format values fuel (i + lit.length + 1 + 1) (fieldnum + 1)
              = Myprintf.scan fmtNode format.length values rest (fieldnum + 1) := by
            funext b
            rw [ih _ _ _ (by omega), hdrop2]
          simp only [List.head?_cons]
          rw [Myprintf.scan_percent, hk]
    · rw [if_neg hi]
      simp [Myprintf.scan, List.drop_eq_nil_of_le (Nat.le_of_not_lt hi)]

theorem Myprintf.run_eq_scan (fmtNode : SQLNode → TrackedBuffer → Result) (buf : TrackedBuffer)
    (format : List UInt8) (values : List Value) :
    Myprintf.run fmtNode buf format values
      = Myprintf.scan fmtNode format.length values format 0 buf := by
  unfold Myprintf.run
  rw [Myprintf.loop_eq_scan _ _ _ _ _ _ _ (by omega)]
  simp

/-! ## `Format` runs the calls of the node -/

theorem Result.andThen_ok (buf : TrackedBuffer) (k : TrackedBuffer → Result) :
    (Result.ok buf).andThen k = k buf := rfl

theorem Result.andThen_panic (buf : TrackedBuffer) (fault : Fault) (k : TrackedBuffer → Result) :
    (Result.panic buf fault).andThen k = .panic buf fault := rfl

theorem Myprintf.directive_congr (f g : SQLNode → TrackedBuffer → Result) (values : List Value)
    (hfg : ∀ n, Value.node n ∈ values → f n = g n) (c : UInt8) (fieldnum : Nat)
    (buf : TrackedBuffer) :
    Myprintf.directive f c values fieldnum buf = Myprintf.directive g c values fieldnum buf := by
  unfold Myprintf.directive
  cases hv : values[fieldnum]? with
  | none => rfl
  | some v =>
    cases v with
    | node n =>
      have hmem : Value.node n ∈ values := by
        rw [List.getElem?_eq_some_iff] at hv
        obtain ⟨h, hv⟩ := hv
        rw [← hv]
        exact List.getElem_mem h
      simp only [hfg n hmem]
    | _ => rfl

theorem Myprintf.scan_congr (f g : SQLNode → TrackedBuffer → Result) (values : List Value)
    (hfg : ∀ n, Value.node n ∈ values → f n = g n) (len : Nat) (format : List UInt8)
    (fieldnum : Nat) (buf : TrackedBuffer) :
    Myprintf.scan f len values format fieldnum buf
      = Myprintf.scan g len values format fieldnum buf := by
  induction format using list_two_step generalizing fieldnum buf with
  | nil => simp [Myprintf.scan]
  | single c => simp [Myprintf.scan]
  | step c d rest ih1 ih2 =>
    by_cases hc : c = '%'.toUInt8
    · have hk : Myprintf.scan f len values rest (fieldnum + 1)
          = Myprintf.scan g len values rest (fieldnum + 1) := by
        funext b
        exact ih2 _ _
      rw [hc, Myprintf.scan_percent, Myprintf.scan_percent,
        Myprintf.directive_congr f g values hfg, hk]
    · rw [Myprintf.scan_cons_literal _ _ _ _ hc, Myprintf.scan_cons_literal _ _ _ _ hc]
      exact ih1 _ _

theorem Myprintf.run_congr (f g : SQLNode → TrackedBuffer → Result) (values : List Value)
    (hfg : ∀ n, Value.node n ∈ values → f n = g n) (buf : TrackedBuffer) (format : List UInt8) :
    Myprintf.run f buf format values = Myprintf.run g buf format values := by
  rw [Myprintf.run_eq_scan, Myprintf.run_eq_scan, Myprintf.scan_congr f g values hfg]

theorem runCalls_congr (f g : TrackedBuffer → List UInt8 → List Value → Result)
    (calls : List (List UInt8 × List Value))
    (hfg : ∀ call ∈ calls, ∀ buf, f buf call.1 call.2 = g buf call.1 call.2)
    (buf : TrackedBuffer) : runCalls f calls buf = runCalls g calls buf := by
  induction calls generalizing buf with
  | nil => rfl
  | cons call rest ih =>
    obtain ⟨format, values⟩ := call
    have hk : runCalls f rest = runCalls g rest := by
      funext b
      exact ih (fun c hc => hfg c (List.mem_cons_of_mem _ hc)) b
    simp only [runCalls, hk]
    rw [hfg (format, values) (List.mem_cons_self _ _) buf]

theorem depth_le_valuesDepth (values : List Value) (n : SQLNode) (h : Value.node n ∈ values) :
    n.depth ≤ valuesDepth values := by
  induction values with
  | nil => simp at h
  | cons v rest ih =>
    rcases List.mem_cons.mp h with hv | hv
    · subst hv
      simp [valuesDepth]
    · have := ih hv
      cases v <;> simp [valuesDepth] <;> omega

theorem valuesDepth_le_callsDepth (calls : List (List UInt8 × List Value))
    (call : List UInt8 × List Value) (h : call ∈ calls) :
    valuesDepth call.2 ≤ callsDepth calls := by
  induction calls with
  | nil => simp at h
  | cons c rest ih =>
    obtain ⟨f, vs⟩ := c
    rcases List.mem_cons.mp h with hc | hc
    · subst hc
      simp [callsDepth]
    · have := ih hc
      simp [callsDepth]
      omega

theorem SQLNode.FormatN_eq (d e : Nat) (n : SQLNode) (hd : n.depth ≤ d) (he : n.depth ≤ e) :
    SQLNode.FormatN d n = SQLNode.FormatN e n := by
  induction d generalizing e n with
  | zero => cases n; simp [SQLNode.depth] at hd
  | succ d ih =>
    cases e with
    | zero => cases n; simp [SQLNode.depth] at he
    | succ e =>
      obtain ⟨typeName, calls⟩ := n
      simp only [SQLNode.depth, Nat.add_le_add_iff_right] at hd he
      funext buf
      simp only [SQLNode.FormatN]
      apply runCalls_congr
      intro call hcall b
      apply Myprintf.run_congr
      intro m hm
      have h1 := depth_le_valuesDepth _ _ hm
      have h2 := valuesDepth_le_callsDepth _ _ hcall
      exact ih e m (by omega) (by omega)

/-- `Format` of a node runs the node's calls to `Myprintf`, in order. -/
theorem SQLNode.Format_mk (typeName : String) (calls : List (List UInt8 × List Value))
    (buf : TrackedBuffer) :
    SQLNode.Format (.mk typeName calls) buf = runCalls Myprintf calls buf := by
  unfold SQLNode.Format Myprintf
  simp only [SQLNode.depth, SQLNode.FormatN]
  apply runCalls_congr
  intro call hcall b
  apply Myprintf.run_congr
  intro m hm
  have h1 := depth_le_valuesDepth _ _ hm
  have h2 := valuesDepth_le_callsDepth _ _ hcall
  funext b2
  unfold SQLNode.Format
  rw [SQLNode.FormatN_eq (callsDepth calls) m.depth m (by omega) (Nat.le_refl _)]

theorem Myprintf_eq_scan (buf : TrackedBuffer) (format : List UInt8) (values : List Value) :
    Myprintf buf format values
      = Myprintf.scan SQLNode.Format format.length values format 0 buf :=
  Myprintf.run_eq_scan _ _ _ _

theorem Result.andThen_return (r : Result) : r.andThen (fun buf => .ok buf) = r := by
  cases r <;> rfl

theorem WriteNode_def (buf : TrackedBuffer) (node : SQLNode) :
    WriteNode buf node = Myprintf buf (goString "%v") [Value.node node] := by
  unfold WriteNode
  exact Result.andThen_return _

/-! ## Rendering does not depend on what the buffer already holds -/

theorem Result.andThen_prepend (pre : TrackedBuffer) (r : Result) (k k2 : TrackedBuffer → Result)
    (hk : ∀ b, k (pre ++ b) = (k2 b).prepend pre) :
    (r.prepend pre).andThen k = (r.andThen k2).prepend pre := by
  cases r with
  | ok b => exact hk b
  | panic b fault => rfl

theorem Result.buf_prepend (pre : TrackedBuffer) (r : Result) :
    (r.prepend pre).buf = pre ++ r.buf := by
  cases r <;> rfl

theorem Result.fault_prepend (pre : TrackedBuffer) (r : Result) :
    (r.prepend pre).fault = r.fault := by
  cases r <;> rfl

theorem Result.prepend_nil (r : Result) : r.prepend [] = r := by
  cases r <;> simp [Result.prepend]

theorem Myprintf.directive_prepend (f : SQLNode → TrackedBuffer → Result) (hf : Framed f)
    (c : UInt8) (values : List Value) (fieldnum : Nat) (pre buf : TrackedBuffer) :
    Myprintf.directive f c values fieldnum (pre ++ buf)
      = (Myprintf.directive f c values fieldnum buf).prepend pre := by
  unfold Myprintf.directive
  cases hv : values[fieldnum]? with
  | none => simp only [Result.prepend]; split_ifs <;> rfl
  | some v =>
    cases v <;>
      simp only [Result.prepend, TrackedBuffer.WriteByte, TrackedBuffer.WriteRune,
        TrackedBuffer.Write, TrackedBuffer.WriteString, AppendRune, List.append_assoc, hf _ pre buf] <;>
      split_ifs <;> rfl

theorem Myprintf.scan_prepend (f : SQLNode → TrackedBuffer → Result) (hf : Framed f)
    (len : Nat) (values : List Value) (format : List UInt8) (fieldnum : Nat)
    (pre buf : TrackedBuffer) :
    Myprintf.scan f len values format fieldnum (pre ++ buf)
      = (Myprintf.scan f len values format fieldnum buf).prepend pre := by
  induction format using list_two_step generalizing fieldnum buf with
  | nil => simp [Myprintf.scan, Result.prepend]
  | single c =>
    by_cases hc : c = '%'.toUInt8 <;> simp [Myprintf.scan, Result.prepend, hc]
  | step c d rest ih1 ih2 =>
    by_cases hc : c = '%'.toUInt8
    · rw [hc, Myprintf.scan_percent, Myprintf.scan_percent, Myprintf.directive_prepend f hf]
      exact Result.andThen_prepend _ _ _ _ (fun b => ih2 _ b)
    · rw [Myprintf.scan_cons_literal _ _ _ _ hc, Myprintf.scan_cons_literal _ _ _ _ hc,
        List.append_assoc]
      exact ih1 _ _

theorem runCalls_prepend (f : TrackedBuffer → List UInt8 → List Value → Result)
    (hf : ∀ pre buf format values, f (pre ++ buf) format values = (f buf format values).prepend pre)
    (calls : List (List UInt8 × List Value)) (pre buf : TrackedBuffer) :
    runCalls f calls (pre ++ buf) = (runCalls f calls buf).prepend pre := by
  induction calls generalizing buf with
  | nil => rfl
  | cons call rest ih =>
    obtain ⟨format, values⟩ := call
    simp only [runCalls, hf]
    exact Result.andThen_prepend _ _ _ _ (fun b => ih b)

theorem Myprintf.run_prepend (f : SQLNode → TrackedBuffer → Result) (hf : Framed f)
    (pre buf : TrackedBuffer) (format : List UInt8) (values : List Value) :
    Myprintf.run f (pre ++ buf) format values = (Myprintf.run f buf format values).prepend pre := by
  rw [Myprintf.run_eq_scan, Myprintf.run_eq_scan, Myprintf.scan_prepend f hf]

theorem SQLNode.FormatN_framed (d : Nat) : Framed (SQLNode.FormatN d) := by
  induction d with
  | zero => intro n pre buf; rfl
  | succ d ih =>
    intro n pre buf
    obtain ⟨typeName, calls⟩ := n
    simp only [SQLNode.FormatN]
    exact runCalls_prepend _ (fun p b fm vs => Myprintf.run_prepend _ ih p b fm vs) _ _ _

theorem SQLNode.Format_framed : Framed SQLNode.Format :=
  fun n pre buf => SQLNode.FormatN_framed n.depth n pre buf

theorem Myprintf_prepend (pre buf : TrackedBuffer) (format : List UInt8) (values : List Value) :
    Myprintf (pre ++ buf) format values = (Myprintf buf format values).prepend pre :=
  Myprintf.run_prepend _ SQLNode.Format_framed _ _ _ _

theorem SQLNode.Format_eq_prepend (n : SQLNode) (buf : TrackedBuffer) :
    n.Format buf = (n.Format []).prepend buf := by
  have := SQLNode.Format_framed n buf []
  simpa using this

/-! ## Splitting a format after a part that renders -/

theorem Myprintf.scan_append_ok (f : SQLNode → TrackedBuffer → Result) (len1 len2 : Nat)
    (values : List Value) (pre rest : List UInt8) (fieldnum : Nat) (buf b : TrackedBuffer)
    (h : Myprintf.scan f len1 values pre fieldnum buf = .ok b) :
    Myprintf.scan f len2 values (pre ++ rest) fieldnum buf
      = Myprintf.scan f len2 values rest (fieldnum + markers pre) b := by
  induction pre using list_two_step generalizing fieldnum buf with
  | nil =>
    simp only [Myprintf.scan, Result.ok.injEq] at h
    simp [markers, h]
  | single c =>
    by_cases hc : c = '%'.toUInt8
    · simp [Myprintf.scan, hc] at h
    · simp only [Myprintf.scan, hc, ne_eq, not_false_eq_true, if_true, Result.ok.injEq] at h
      rw [List.singleton_append, Myprintf.scan_cons_literal _ _ _ _ hc, h]
      simp [markers]
  | step c d pre ih1 ih2 =>
    by_cases hc : c = '%'.toUInt8
    · rw [hc, Myprintf.scan_percent] at h
      rw [hc, List.cons_append, List.cons_append, Myprintf.scan_percent]
      cases hd : Myprintf.directive f d values fieldnum buf with
      | panic b1 fault => rw [hd] at h; simp [Result.andThen] at h
      | ok b1 =>
        rw [hd, Result.andThen_ok] at h
        rw [Result.andThen_ok, ih2 _ _ h]
        have : markers ('%'.toUInt8 :: d :: pre) = markers pre + 1 := by simp [markers]
        rw [this]
        congr 1
        omega
    · rw [Myprintf.scan_cons_literal _ _ _ _ hc] at h
      rw [List.cons_append, Myprintf.scan_cons_literal _ _ _ _ hc, ih1 _ _ h]
      simp [markers, hc]

theorem Myprintf_append_ok (buf b : TrackedBuffer) (pre rest : List UInt8) (values : List Value)
    (h : Myprintf buf pre values = .ok b) :
    Myprintf buf (pre ++ rest) values
      = Myprintf.scan SQLNode.Format (pre ++ rest).length values rest (markers pre) b := by
  rw [Myprintf_eq_scan] at h
  rw [Myprintf_eq_scan, Myprintf.scan_append_ok _ _ _ _ _ _ _ _ _ h]
  simp

/-! ## The directives -/

theorem Myprintf.directive_c (f : SQLNode → TrackedBuffer → Result) (values : List Value)
    (fieldnum : Nat) (buf : TrackedBuffer) :
    Myprintf.directive f 'c'.toUInt8 values fieldnum buf =
      match values[fieldnum]? with
      | none => .panic buf (.valuesIndex fieldnum values.length)
      | some (.byte v) => .ok (buf.WriteByte v)
      | some (.rune v) => .ok (buf.WriteRune v)
      | some v => .panic buf (.unexpectedType v.typeName) := by
  unfold Myprintf.directive
  rw [if_pos rfl]

theorem Myprintf.directive_s (f : SQLNode → TrackedBuffer → Result) (values : List Value)
    (fieldnum : Nat) (buf : TrackedBuffer) :
    Myprintf.directive f 's'.toUInt8 values fieldnum buf =
      match values[fieldnum]? with
      | none => .panic buf (.valuesIndex fieldnum values.length)
      | some (.bytes v) => .ok (buf.Write v)
      | some (.string v) => .ok (buf.WriteString v)
      | some v => .panic buf (.unexpectedType v.typeName) := by
  unfold Myprintf.directive
  rw [if_neg (by decide), if_pos rfl]

theorem Myprintf.directive_v (f : SQLNode → TrackedBuffer → Result) (values : List Value)
    (fieldnum : Nat) (buf : TrackedBuffer) :
    Myprintf.directive f 'v'.toUInt8 values fieldnum buf =
      match values[fieldnum]? with
      | none => .panic buf (.valuesIndex fieldnum values.length)
      | some (.node node) => f node buf
      | some v => .panic buf (.typeAssertion v.typeName "parser.SQLNode") := by
  unfold Myprintf.directive
  rw [if_neg (by decide), if_neg (by decide), if_pos rfl]

theorem Myprintf.directive_a (f : SQLNode → TrackedBuffer → Result) (values : List Value)
    (fieldnum : Nat) (buf : TrackedBuffer) :
    Myprintf.directive f 'a'.toUInt8 values fieldnum buf =
      match values[fieldnum]? with
      | none => .panic buf (.valuesIndex fieldnum values.length)
      | some (.string v) => .ok (buf.WriteString v)
      | some v => .panic buf (.typeAssertion v.typeName "string") := by
  unfold Myprintf.directive
  rw [if_neg (by decide), if_neg (by decide), if_neg (by decide), if_pos rfl]

theorem Myprintf.directive_unsupported (f : SQLNode → TrackedBuffer → Result) (x : UInt8)
    (hc : x ≠ 'c'.toUInt8) (hs : x ≠ 's'.toUInt8) (hv : x ≠ 'v'.toUInt8) (ha : x ≠ 'a'.toUInt8)
    (values : List Value) (fieldnum : Nat) (buf : TrackedBuffer) :
    Myprintf.directive f x values fieldnum buf = .panic buf .unexpected := by
  unfold Myprintf.directive
  rw [if_neg hc, if_neg hs, if_neg hv, if_neg ha]

theorem goString_percent_v : goString "%v" = ['%'.toUInt8, 'v'.toUInt8] := by decide

theorem goString_percent_s : goString "%s" = ['%'.toUInt8, 's'.toUInt8] := by decide

theorem goString_percent_a : goString "%a" = ['%'.toUInt8, 'a'.toUInt8] := by decide

theorem goString_percent_c : goString "%c" = ['%'.toUInt8, 'c'.toUInt8] := by decide

theorem Result.eq_ok_of_isOk (r : Result) (h : r.isOk = true) : r = .ok r.buf := by
  cases r with
  | ok b => rfl
  | panic b fault => simp [Result.isOk] at h

theorem SQLNode.Format_of_isOk (n : SQLNode) (h : (n.Format []).isOk = true)
    (buf : TrackedBuffer) : n.Format buf = .ok (buf ++ (n.Format []).buf) := by
  rw [SQLNode.Format_eq_prepend n buf, Result.eq_ok_of_isOk _ h]
  rfl

/-! ## Composition of sub-node markers -/

theorem Myprintf.scan_goString_v (f : SQLNode → TrackedBuffer → Result) (len : Nat)
    (values : List Value) (rest : List UInt8) (fieldnum : Nat) (buf : TrackedBuffer) :
    Myprintf.scan f len values (goString "%v" ++ rest) fieldnum buf
      = (Myprintf.directive f 'v'.toUInt8 values fieldnum buf).andThen
          (Myprintf.scan f len values rest (fieldnum + 1)) := by
  rw [goString_percent_v]
  exact Myprintf.scan_percent _ _ _ _ _ _ _

theorem Myprintf.scan_nodes (len : Nat) (pre : List Value) (items : List (SQLNode × List UInt8))
    (hlit : ∀ it ∈ items, '%'.toUInt8 ∉ it.2)
    (hok : ∀ it ∈ items, (it.1.Format []).isOk = true) (buf : TrackedBuffer) :
    Myprintf.scan SQLNode.Format len (pre ++ items.map (fun it => Value.node it.1))
        (items.flatMap (fun it => goString "%v" ++ it.2)) pre.length buf
      = .ok (buf ++ items.flatMap (fun it => (it.1.Format []).buf ++ it.2)) := by
  induction items generalizing pre buf with
  | nil => simp [Myprintf.scan]
  | cons it items ih =>
    have hget : (pre ++ List.map (fun it => Value.node it.1) (it :: items))[pre.length]?
        = some (Value.node it.1) := by
      rw [List.getElem?_append_right (Nat.le_refl _)]
      simp
    have hl : ∀ c ∈ it.2, c ≠ '%'.toUInt8 := by
      intro c hc hEq
      exact hlit it (List.mem_cons_self _ _) (hEq ▸ hc)
    rw [List.flatMap_cons, List.append_assoc, Myprintf.scan_goString_v, Myprintf.directive_v, hget]
    simp only []
    rw [SQLNode.Format_of_isOk _ (hok it (List.mem_cons_self _ _)), Result.andThen_ok,
      Myprintf.scan_literal _ _ _ _ hl]
    have hval : pre ++ List.map (fun it => Value.node it.1) (it :: items)
        = (pre ++ [Value.node it.1]) ++ List.map (fun it => Value.node it.1) items := by
      simp
    have hlen : pre.length + 1 = (pre ++ [Value.node it.1]).length := by simp
    rw [hval, hlen, ih _ (fun x hx => hlit x (List.mem_cons_of_mem _ hx))
      (fun x hx => hok x (List.mem_cons_of_mem _ hx))]
    simp

/-! ## Claims -/

/-- C1: recursive composition.  For a template `L0 %v L1 %v ... %v Lk` whose
literal spans contain no `%` and `k` nodes whose `Format` succeeds, `Myprintf`
returns normally having appended exactly
`L0 ++ render(n1) ++ L1 ++ ... ++ render(nk) ++ Lk`, where `render(ni)` is what
`ni.Format` produces alone (in an empty buffer); the j-th marker takes the j-th
argument. -/
theorem Myprintf_recursive_composition (buf : TrackedBuffer) (lit0 : List UInt8)
    (items : List (SQLNode × List UInt8))
    (hlit0 : '%'.toUInt8 ∉ lit0)
    (hlit : ∀ it ∈ items, '%'.toUInt8 ∉ it.2)
    (hok : ∀ it ∈ items, (it.1.Format []).isOk = true) :
    Myprintf buf (nodeTemplate lit0 items) (items.map (fun it => Value.node it.1))
      = .ok (buf ++ nodeOutput lit0 items) := by
  have hl : ∀ c ∈ lit0, c ≠ '%'.toUInt8 := fun c hc hEq => hlit0 (hEq ▸ hc)
  rw [Myprintf_eq_scan]
  unfold nodeTemplate nodeOutput
  rw [Myprintf.scan_literal _ _ _ _ hl]
  have := Myprintf.scan_nodes (lit0 ++ items.flatMap (fun it => goString "%v" ++ it.2)).length []
    items hlit hok (buf ++ lit0)
  simp only [List.nil_append, List.length_nil] at this
  rw [this]
  simp

/-- C1 at `"SELECT %v FROM %v"` with nodes rendering `id` and `users`: the
buffer receives `SELECT id FROM users`. -/
theorem Myprintf_recursive_composition_witness :
    ('%'.toUInt8 ∉ goString "SELECT " ∧
      (∀ it ∈ [(SQLNode.mk "ColName" [(goString "id", [])], goString " FROM "),
          (SQLNode.mk "TableName" [(goString "%s", [Value.string (goString "users")])], [])],
        '%'.toUInt8 ∉ it.2) ∧
      (∀ it ∈ [(SQLNode.mk "ColName" [(goString "id", [])], goString " FROM "),
          (SQLNode.mk "TableName" [(goString "%s", [Value.string (goString "users")])], [])],
        (it.1.Format []).isOk = true)) ∧
    Myprintf [] (goString "SELECT %v FROM %v")
        [Value.node (SQLNode.mk "ColName" [(goString "id", [])]),
         Value.node (SQLNode.mk "TableName" [(goString "%s", [Value.string (goString "users")])])]
      = .ok (goString "SELECT id FROM users") :=
  ⟨⟨by decide, by decide, by decide⟩,
    Myprintf_recursive_composition [] (goString "SELECT ")
      [(SQLNode.mk "ColName" [(goString "id", [])], goString " FROM "),
       (SQLNode.mk "TableName" [(goString "%s", [Value.string (goString "users")])], [])]
      (by decide) (by decide) (by decide)⟩

/-- C2: a template with no `%` is copied verbatim.  For every template that
contains no `%`, every argument list and every buffer content, `Myprintf`
returns normally and the buffer is its old content followed by exactly the
template. -/
theorem Myprintf_literal_only (buf : TrackedBuffer) (format : List UInt8) (values : List Value)
    (h : '%'.toUInt8 ∉ format) :
    Myprintf buf format values = .ok (buf ++ format) := by
  have hl : ∀ c ∈ format, c ≠ '%'.toUInt8 := fun c hc hEq => h (hEq ▸ hc)
  have := Myprintf.scan_literal SQLNode.Format format.length values format hl [] 0 buf
  rw [Myprintf_eq_scan]
  simpa [Myprintf.scan] using this

/-- C2 at the template `SELECT 1` with two surplus arguments. -/
theorem Myprintf_literal_only_witness :
    '%'.toUInt8 ∉ goString "SELECT 1" ∧
    Myprintf (goString "x") (goString "SELECT 1") [Value.other "int", Value.string (goString "%")]
      = .ok (goString "xSELECT 1") :=
  ⟨by decide, Myprintf_literal_only (goString "x") (goString "SELECT 1")
    [Value.other "int", Value.string (goString "%")] (by decide)⟩

/-- C3: raw text is appended unchanged.  For every string `s`, `Myprintf("%s", s)`
and `Myprintf("%a", s)` return normally having appended exactly the bytes of
`s`, and for every byte sequence `b`, `Myprintf("%s", b)` appends exactly `b`;
with `O'Brien` the buffer receives `O'Brien`. -/
theorem Myprintf_raw_text_verbatim (buf s b : List UInt8) :
    Myprintf buf (goString "%s") [Value.string s] = .ok (buf ++ s) ∧
    Myprintf buf (goString "%a") [Value.string s] = .ok (buf ++ s) ∧
    Myprintf buf (goString "%s") [Value.bytes b] = .ok (buf ++ b) ∧
    Myprintf [] (goString "%s") [Value.string (goString "O\x27Brien")]
      = .ok (goString "O\x27Brien") := by
  refine ⟨?_, ?_, ?_, ?_⟩
  · rw [Myprintf_eq_scan, goString_percent_s, Myprintf.scan_percent, Myprintf.directive_s]
    rfl
  · rw [Myprintf_eq_scan, goString_percent_a, Myprintf.scan_percent, Myprintf.directive_a]
    rfl
  · rw [Myprintf_eq_scan, goString_percent_s, Myprintf.scan_percent, Myprintf.directive_s]
    rfl
  · decide

/-- C6: `WriteNode(node)` is `Myprintf("%v", node)`.  For every node and every
buffer content, the two leave the buffer in the same state and panic in the
same cases with the same panic value; both do exactly what `node.Format` does
on that buffer. -/
theorem WriteNode_eq_Myprintf (buf : TrackedBuffer) (node : SQLNode) :
    WriteNode buf node = Myprintf buf (goString "%v") [Value.node node] ∧
    WriteNode buf node = node.Format buf := by
  refine ⟨WriteNode_def buf node, ?_⟩
  rw [WriteNode_def, Myprintf_eq_scan, goString_percent_v, Myprintf.scan_percent,
    Myprintf.directive_v]
  simp only [List.getElem?_cons_zero]
  cases node.Format buf <;> rfl

theorem expects_c (v : Value) :
    expects 'c'.toUInt8 v = (match v with | .byte _ => true | .rune _ => true | _ => false) := by
  unfold expects
  rw [if_pos rfl]

theorem expects_s (v : Value) :
    expects 's'.toUInt8 v = (match v with | .bytes _ => true | .string _ => true | _ => false) := by
  unfold expects
  rw [if_neg (by decide), if_pos rfl]

theorem expects_v (v : Value) :
    expects 'v'.toUInt8 v = (match v with | .node _ => true | _ => false) := by
  unfold expects
  rw [if_neg (by decide), if_neg (by decide), if_pos rfl]

theorem expects_a (v : Value) :
    expects 'a'.toUInt8 v = (match v with | .string _ => true | _ => false) := by
  unfold expects
  rw [if_neg (by decide), if_neg (by decide), if_neg (by decide), if_pos rfl]

/-- C4: type contract.  When the scan reaches a marker `%c`, `%s`, `%v` or `%a`
(the part `pre` of the template before it rendered, leaving `b`) and the
argument it consumes is of a kind outside the marker's expected set, `Myprintf`
panics with the buffer still `b`: nothing is appended for that argument.  The
panic value carries the argument's dynamic type: the `unexpected TrackedBuffer
type` message for `%c` and `%s`, a failed type assertion for `%v` and `%a`. -/
theorem Myprintf_type_contract (buf b : TrackedBuffer) (pre rest : List UInt8)
    (values : List Value) (c : UInt8) (v : Value)
    (hc : c ∈ supported)
    (hpre : Myprintf buf pre values = .ok b)
    (hv : values[markers pre]? = some v)
    (hkind : expects c v = false) :
    ∃ fault, Myprintf buf (pre ++ '%'.toUInt8 :: c :: rest) values = .panic b fault ∧
      (fault = .unexpectedType v.typeName ∨ ∃ asserted, fault = .typeAssertion v.typeName asserted) := by
  rw [Myprintf_append_ok buf b pre _ values hpre, Myprintf.scan_percent]
  simp only [supported, List.mem_cons, List.mem_singleton, List.not_mem_nil, or_false] at hc
  rcases hc with rfl | rfl | rfl | rfl
  · rw [Myprintf.directive_c, hv]
    rw [expects_c] at hkind
    cases v <;> simp at hkind <;> exact ⟨_, rfl, Or.inl rfl⟩
  · rw [Myprintf.directive_s, hv]
    rw [expects_s] at hkind
    cases v <;> simp at hkind <;> exact ⟨_, rfl, Or.inl rfl⟩
  · rw [Myprintf.directive_v, hv]
    rw [expects_v] at hkind
    cases v <;> simp at hkind <;> exact ⟨_, rfl, Or.inr ⟨_, rfl⟩⟩
  · rw [Myprintf.directive_a, hv]
    rw [expects_a] at hkind
    cases v <;> simp at hkind <;> exact ⟨_, rfl, Or.inr ⟨_, rfl⟩⟩

/-- C4 at `%a` with a byte sequence, after the part `x=` of the template: the
call panics with the buffer holding `x=` only, although `%s` accepts the same
argument. -/
theorem Myprintf_type_contract_witness :
    ('a'.toUInt8 ∈ supported ∧
      Myprintf [] (goString "x=") [Value.bytes (goString "ab")] = .ok (goString "x=") ∧
      [Value.bytes (goString "ab")][markers (goString "x=")]? = some (Value.bytes (goString "ab")) ∧
      expects 'a'.toUInt8 (Value.bytes (goString "ab")) = false ∧
      expects 's'.toUInt8 (Value.bytes (goString "ab")) = true) ∧
    ∃ fault, Myprintf [] (goString "x=%a;") [Value.bytes (goString "ab")]
        = .panic (goString "x=") fault ∧
      (fault = .unexpectedType "[]uint8" ∨ ∃ asserted, fault = .typeAssertion "[]uint8" asserted) :=
  ⟨⟨by decide, by decide, rfl, by decide, by decide⟩,
    Myprintf_type_contract [] (goString "x=") (goString "x=") (goString ";")
      [Value.bytes (goString "ab")] 'a'.toUInt8 (Value.bytes (goString "ab"))
      (by decide) (by decide) rfl (by decide)⟩

/-- C5: unsupported directive.  When the part `pre` of the template before the
marker rendered, leaving `b`, and the marker character `x` is none of `c`, `s`,
`v`, `a`, `Myprintf` panics with `"unexpected"` whatever the arguments are, and
the buffer at the panic is `b`: nothing of `x` or of the rest of the template
is appended. -/
theorem Myprintf_unsupported_directive (buf b : TrackedBuffer) (pre rest : List UInt8)
    (values : List Value) (x : UInt8)
    (hx : x ∉ supported)
    (hpre : Myprintf buf pre values = .ok b) :
    Myprintf buf (pre ++ '%'.toUInt8 :: x :: rest) values = .panic b .unexpected := by
  simp only [supported, List.mem_cons, List.mem_singleton, List.not_mem_nil, or_false,
    not_or] at hx
  rw [Myprintf_append_ok buf b pre _ values hpre, Myprintf.scan_percent,
    Myprintf.directive_unsupported _ x hx.1 hx.2.1 hx.2.2.1 hx.2.2.2]
  rfl

/-- C5 at `ab%s%d%s` with the single argument `x`: the panic comes at `%d` with
the buffer holding `abx`, before the missing second argument is looked up. -/
theorem Myprintf_unsupported_directive_witness :
    ('d'.toUInt8 ∉ supported ∧
      Myprintf [] (goString "ab%s") [Value.string (goString "x")] = .ok (goString "abx")) ∧
    Myprintf [] (goString "ab%s%d%s") [Value.string (goString "x")]
      = .panic (goString "abx") .unexpected :=
  ⟨⟨by decide, by decide⟩,
    Myprintf_unsupported_directive [] (goString "abx") (goString "ab%s") (goString "%s")
      [Value.string (goString "x")] 'd'.toUInt8 (by decide) (by decide)⟩

theorem getElem?_length_self (values : List Value) : values[values.length]? = none := by
  simp

/-- C8, as amended: argument-count mismatch.  When the template has more
markers than there are arguments, say `n`, and the part `pre` of the template
before its `(n+1)`-th marker renders with them, leaving `b`, then `Myprintf`
panics at that marker with the bounds error of `values[n]`; the count is not
checked up front, for the buffer at the panic is `b`, with all that `pre`
produced. -/
theorem Myprintf_missing_argument (buf b : TrackedBuffer) (pre rest : List UInt8)
    (values : List Value) (c : UInt8)
    (hc : c ∈ supported)
    (hpre : Myprintf buf pre values = .ok b)
    (hn : markers pre = values.length) :
    Myprintf buf (pre ++ '%'.toUInt8 :: c :: rest) values
      = .panic b (.valuesIndex values.length values.length) := by
  rw [Myprintf_append_ok buf b pre _ values hpre, Myprintf.scan_percent, hn]
  simp only [supported, List.mem_cons, List.mem_singleton, List.not_mem_nil, or_false] at hc
  rcases hc with rfl | rfl | rfl | rfl
  · rw [Myprintf.directive_c, getElem?_length_self]; rfl
  · rw [Myprintf.directive_s, getElem?_length_self]; rfl
  · rw [Myprintf.directive_v, getElem?_length_self]; rfl
  · rw [Myprintf.directive_a, getElem?_length_self]; rfl

/-- C8 at `a%sb%sc` with the single argument `x`: the panic is the bounds error
of `values[1]`, with `axb` already in the buffer. -/
theorem Myprintf_missing_argument_witness :
    ('s'.toUInt8 ∈ supported ∧
      Myprintf [] (goString "a%sb") [Value.string (goString "x")] = .ok (goString "axb") ∧
      markers (goString "a%sb") = [Value.string (goString "x")].length) ∧
    Myprintf [] (goString "a%sb%sc") [Value.string (goString "x")]
      = .panic (goString "axb") (.valuesIndex 1 1) :=
  ⟨⟨by decide, by decide, by decide⟩,
    Myprintf_missing_argument [] (goString "axb") (goString "a%sb") (goString "c")
      [Value.string (goString "x")] 's'.toUInt8 (by decide) (by decide) (by decide)⟩

/-- C8 as stated fails at `%s%s` with the single argument `byte(1)`: both
markers are supported and the template has two markers for one argument, yet
the panic is the type fault of the first marker, not a bounds error at the
second. -/
theorem Myprintf_missing_argument_counterexample :
    directives (goString "%s%s") = ['s'.toUInt8, 's'.toUInt8] ∧
    markers (goString "%s%s") = 2 ∧
    [Value.byte 1].length = 1 ∧
    Myprintf [] (goString "%s%s") [Value.byte 1] = .panic [] (.unexpectedType "uint8") ∧
    ¬ ∃ buf index length,
      Myprintf [] (goString "%s%s") [Value.byte 1] = .panic buf (.valuesIndex index length) := by
  refine ⟨by decide, by decide, by decide, by decide, ?_⟩
  rintro ⟨buf, index, length, h⟩
  have h2 : Myprintf [] (goString "%s%s") [Value.byte 1] = .panic [] (.unexpectedType "uint8") := by
    decide
  rw [h2] at h
  simp at h

/-- C10: append-only.  For every template, argument list, node and buffer
content `B`, when `Myprintf` or `WriteNode` returns or panics the buffer is `B`
followed by what was appended: the bytes of `B` are neither changed, removed
nor reordered. -/
theorem Myprintf_append_only (buf : TrackedBuffer) (format : List UInt8) (values : List Value)
    (node : SQLNode) :
    (∃ out, (Myprintf buf format values).buf = buf ++ out) ∧
    (∃ out, (WriteNode buf node).buf = buf ++ out) := by
  have key : ∀ fm vs, (Myprintf buf fm vs).buf = buf ++ (Myprintf [] fm vs).buf := by
    intro fm vs
    have := Myprintf_prepend buf [] fm vs
    rw [List.append_nil] at this
    rw [this, Result.buf_prepend]
  exact ⟨⟨_, key format values⟩, ⟨_, by rw [WriteNode_def]; exact key _ _⟩⟩

/-! ## Where a `%` in the output comes from -/

theorem mem_of_getElem?_eq_some (values : List Value) (i : Nat) (v : Value)
    (h : values[i]? = some v) : v ∈ values := by
  rw [List.getElem?_eq_some_iff] at h
  obtain ⟨hi, hv⟩ := h
  rw [← hv]
  exact List.getElem_mem hi

theorem Myprintf.directive_argText (f : SQLNode → TrackedBuffer → Result) (d : UInt8)
    (hd : d ≠ 'v'.toUInt8) (values : List Value) (fieldnum : Nat) (buf b : TrackedBuffer)
    (h : Myprintf.directive f d values fieldnum buf = .ok b) :
    ∃ v, values[fieldnum]? = some v ∧ b = buf ++ argText v := by
  unfold Myprintf.directive at h
  rw [if_neg hd] at h
  cases hv : values[fieldnum]? with
  | none =>
    rw [hv] at h
    split_ifs at h
  | some v =>
    rw [hv] at h
    refine ⟨v, rfl, ?_⟩
    cases v <;> split_ifs at h <;> simp only [Result.ok.injEq] at h <;>
      first
      | (rw [← h]; simp [argText, TrackedBuffer.WriteByte, TrackedBuffer.WriteString,
          TrackedBuffer.Write]; done)
      | (rw [← h]
         simp only [argText, TrackedBuffer.WriteRune, TrackedBuffer.WriteByte, AppendRune]
         split_ifs <;> simp)

theorem Myprintf.directive_ok_supported (f : SQLNode → TrackedBuffer → Result) (d : UInt8)
    (values : List Value) (fieldnum : Nat) (buf b : TrackedBuffer)
    (h : Myprintf.directive f d values fieldnum buf = .ok b) : d ∈ supported := by
  by_contra hd
  simp only [supported, List.mem_cons, List.mem_singleton, List.not_mem_nil, or_false,
    not_or] at hd
  rw [Myprintf.directive_unsupported f d hd.1 hd.2.1 hd.2.2.1 hd.2.2.2] at h
  simp at h

theorem Myprintf.scan_spans (f : SQLNode → TrackedBuffer → Result) (len : Nat)
    (values : List Value) (format : List UInt8) (hformat : 'v'.toUInt8 ∉ directives format)
    (fieldnum : Nat) (buf b : TrackedBuffer)
    (h : Myprintf.scan f len values format fieldnum buf = .ok b) :
    b = buf ++ (spans values format fieldnum).flatMap Span.bytes ∧
    ∀ s ∈ spans values format fieldnum,
      (∃ c, s = Span.literal c ∧ c ≠ '%'.toUInt8) ∨
      (∃ d v k, s = Span.argument d v ∧ d ∈ ['c'.toUInt8, 's'.toUInt8, 'a'.toUInt8] ∧
        fieldnum ≤ k ∧ k < fieldnum + markers format ∧ values[k]? = some v) := by
  induction format using list_two_step generalizing fieldnum buf with
  | nil =>
    simp only [Myprintf.scan, Result.ok.injEq] at h
    simp [spans, h]
  | single c =>
    by_cases hc : c = '%'.toUInt8
    · simp [Myprintf.scan, hc] at h
    · simp only [Myprintf.scan, hc, ne_eq, not_false_eq_true, if_true, Result.ok.injEq] at h
      refine ⟨by simp [spans, hc, Span.bytes, h], ?_⟩
      intro s hs
      simp only [spans, hc, ne_eq, not_false_eq_true, if_true, List.mem_singleton] at hs
      exact Or.inl ⟨c, hs, hc⟩
  | step c d rest ih1 ih2 =>
    by_cases hc : c = '%'.toUInt8
    · rw [hc, Myprintf.scan_percent] at h
      have hdir : directives (c :: d :: rest) = d :: directives rest := by
        simp [directives, hc]
      have hmark : markers (c :: d :: rest) = markers rest + 1 := by
        simp [markers, hc]
      rw [hdir, List.mem_cons, not_or] at hformat
      cases hd : Myprintf.directive f d values fieldnum buf with
      | panic b1 fault => rw [hd] at h; simp [Result.andThen] at h
      | ok b1 =>
        rw [hd, Result.andThen_ok] at h
        have hdv : d ≠ 'v'.toUInt8 := fun e => hformat.1 e.symm
        obtain ⟨v, hv, hb1⟩ := Myprintf.directive_argText f d hdv _ _ _ _ hd
        have hsup := Myprintf.directive_ok_supported f d _ _ _ _ hd
        have hd3 : d ∈ ['c'.toUInt8, 's'.toUInt8, 'a'.toUInt8] := by
          simp only [supported, List.mem_cons, List.mem_singleton, List.not_mem_nil,
            or_false] at hsup ⊢
          rcases hsup with h1 | h1 | h1 | h1
          · exact Or.inl h1
          · exact Or.inr (Or.inl h1)
          · exact absurd h1 hdv
          · exact Or.inr (Or.inr h1)
        have hsp : spans values (c :: d :: rest) fieldnum
            = Span.argument d v :: spans values rest (fieldnum + 1) := by
          simp [spans, hc, hv]
        obtain ⟨hout, hgood⟩ := ih2 hformat.2 (fieldnum + 1) _ h
        rw [hsp, hmark]
        refine ⟨by rw [hout, hb1]; simp [Span.bytes], ?_⟩
        intro s hs
        rcases List.mem_cons.mp hs with rfl | hs
        · exact Or.inr ⟨d, v, fieldnum, rfl, hd3, Nat.le_refl _, by omega, hv⟩
        · rcases hgood s hs with hl | ⟨d2, v2, k, h1, h2, h3, h4, h5⟩
          · exact Or.inl hl
          · exact Or.inr ⟨d2, v2, k, h1, h2, by omega, by omega, h5⟩
    · rw [Myprintf.scan_cons_literal _ _ _ _ hc] at h
      have hdir : directives (c :: d :: rest) = directives (d :: rest) := by
        simp [directives, hc]
      have hmark : markers (c :: d :: rest) = markers (d :: rest) := by
        simp [markers, hc]
      have hsp : spans values (c :: d :: rest) fieldnum
          = Span.literal c :: spans values (d :: rest) fieldnum := by
        simp [spans, hc]
      rw [hdir] at hformat
      obtain ⟨hout, hgood⟩ := ih1 hformat fieldnum _ h
      rw [hsp, hmark]
      refine ⟨by rw [hout]; simp [Span.bytes], ?_⟩
      intro s hs
      rcases List.mem_cons.mp hs with rfl | hs
      · exact Or.inl ⟨c, rfl, hc⟩
      · exact hgood s hs

theorem Span.flatMap_getElem? (l : List Span) (p : Nat) (x : UInt8)
    (h : (l.flatMap Span.bytes)[p]? = some x) :
    ∃ pre s post, l = pre ++ s :: post ∧ (pre.flatMap Span.bytes).length ≤ p ∧
      p < (pre.flatMap Span.bytes).length + s.bytes.length ∧ x ∈ s.bytes := by
  induction l generalizing p with
  | nil => simp at h
  | cons s l ih =>
    rw [List.flatMap_cons] at h
    by_cases hp : p < s.bytes.length
    · rw [List.getElem?_append_left hp] at h
      refine ⟨[], s, l, rfl, by simp, by simpa using hp, ?_⟩
      rw [List.getElem?_eq_some_iff] at h
      obtain ⟨hlt, hx⟩ := h
      rw [← hx]
      exact List.getElem_mem hlt
    · rw [List.getElem?_append_right (Nat.le_of_not_lt hp)] at h
      obtain ⟨pre, s2, post, hl, h1, h2, h3⟩ := ih _ h
      refine ⟨s :: pre, s2, post, by rw [hl]; rfl, ?_, ?_, h3⟩
      · rw [List.flatMap_cons, List.length_append]
        omega
      · rw [List.flatMap_cons, List.length_append]
        omega

/-- C9, as amended: where a `%` in the output comes from.  For every template
without a sub-node marker and every argument list on which `Myprintf`
succeeds, the appended output is the concatenation, in order, of the spans of
the template: a literal span for each template byte outside the directives,
none of which is `%`, and for each directive the span of the argument it
consumes, the directive being `%c`, `%s` or `%a`.  So every `%` byte of the
appended output, at whatever position, lies inside the span of a `%c`, `%s`
or `%a` argument, and no template text is copied as a `%`. -/
theorem Myprintf_percent_only_from_arguments (buf b : TrackedBuffer) (format : List UInt8)
    (values : List Value)
    (hformat : 'v'.toUInt8 ∉ directives format)
    (h : Myprintf buf format values = .ok b) :
    b = buf ++ (spans values format 0).flatMap Span.bytes ∧
    (∀ s ∈ spans values format 0,
      (∃ c, s = Span.literal c ∧ c ≠ '%'.toUInt8) ∨
      (∃ d v, s = Span.argument d v ∧ d ∈ ['c'.toUInt8, 's'.toUInt8, 'a'.toUInt8] ∧
        v ∈ values.take (markers format))) ∧
    (∀ p, ((spans values format 0).flatMap Span.bytes)[p]? = some '%'.toUInt8 →
      ∃ pre d v post, spans values format 0 = pre ++ Span.argument d v :: post ∧
        d ∈ ['c'.toUInt8, 's'.toUInt8, 'a'.toUInt8] ∧ v ∈ values.take (markers format) ∧
        (pre.flatMap Span.bytes).length ≤ p ∧
        p < (pre.flatMap Span.bytes).length + (argText v).length) := by
  rw [Myprintf_eq_scan] at h
  obtain ⟨hout, hgood⟩ := Myprintf.scan_spans _ _ values format hformat 0 _ _ h
  have hgood2 : ∀ s ∈ spans values format 0,
      (∃ c, s = Span.literal c ∧ c ≠ '%'.toUInt8) ∨
      (∃ d v, s = Span.argument d v ∧ d ∈ ['c'.toUInt8, 's'.toUInt8, 'a'.toUInt8] ∧
        v ∈ values.take (markers format)) := by
    intro s hs
    rcases hgood s hs with hl | ⟨d, v, k, h1, h2, _, h4, h5⟩
    · exact Or.inl hl
    · have hk : k < markers format := by omega
      have : (values.take (markers format))[k]? = some v := by
        rw [List.getElem?_take_of_lt hk, h5]
      exact Or.inr ⟨d, v, h1, h2, mem_of_getElem?_eq_some _ _ _ this⟩
  refine ⟨hout, hgood2, ?_⟩
  intro p hp
  obtain ⟨pre, s, post, hl, h1, h2, h3⟩ := Span.flatMap_getElem? _ p _ hp
  have hs : s ∈ spans values format 0 := by
    rw [hl]
    simp
  rcases hgood2 s hs with ⟨c, rfl, hc⟩ | ⟨d, v, rfl, hd, hv⟩
  · simp only [Span.bytes, List.mem_singleton] at h3
    exact absurd h3.symm hc
  · exact ⟨pre, d, v, post, hl, hd, hv, h1, h2⟩

/-- C9 at `100%c %s` with the byte `%`, the string `50%` and a surplus
argument: the output is `100% 50%`, made of the four template bytes `100` and
the blank and of the spans of the two arguments, which hold its two `%`. -/
theorem Myprintf_percent_only_from_arguments_witness :
    ('v'.toUInt8 ∉ directives (goString "100%c %s") ∧
      Myprintf [] (goString "100%c %s") [Value.byte '%'.toUInt8, Value.string (goString "50%"),
          Value.string (goString "%")]
        = .ok (goString "100% 50%")) ∧
    goString "100% 50%" = [] ++ (spans [Value.byte '%'.toUInt8, Value.string (goString "50%"),
        Value.string (goString "%")] (goString "100%c %s") 0).flatMap Span.bytes :=
  ⟨⟨by decide, by decide⟩,
    (Myprintf_percent_only_from_arguments [] (goString "100% 50%") (goString "100%c %s")
      [Value.byte '%'.toUInt8, Value.string (goString "50%"), Value.string (goString "%")]
      (by decide) (by decide)).1⟩

/-- C9 as stated fails at `%c` with the byte `%`: the template has no sub-node
marker and no `%s` or `%a` argument contributes a `%` (there is none), yet
`Myprintf` succeeds and the output is `%`, written by `%c`. -/
theorem Myprintf_percent_only_from_arguments_counterexample :
    'v'.toUInt8 ∉ directives (goString "%c") ∧
    (∀ v ∈ [Value.byte '%'.toUInt8].take (markers (goString "%c")), '%'.toUInt8 ∉ rawText v) ∧
    Myprintf [] (goString "%c") [Value.byte '%'.toUInt8] = .ok ['%'.toUInt8] ∧
    '%'.toUInt8 ∈ ['%'.toUInt8] := by
  decide

/-! ## `WriteRune` and UTF-8 -/

theorem uint8_lor_comm (a b : UInt8) : a ||| b = b ||| a := by
  apply UInt8.ext
  show (a.toBitVec ||| b.toBitVec).toNat = (b.toBitVec ||| a.toBitVec).toNat
  rw [BitVec.toNat_or, BitVec.toNat_or, Nat.lor_comm]

theorem toByte_natCast_shift (n k : Nat) : toByte ((n : Int) >>> k) = (n >>> k).toUInt8 := by
  unfold toByte
  rw [Int.shiftRight_eq_div_pow, Nat.shiftRight_eq_div_pow]
  apply UInt8.ext
  have h : ((n : Int) / ((2 ^ k : Nat) : Int) % 256).toNat = (n / 2 ^ k) % 256 := by
    have : ((n : Int) / ((2 ^ k : Nat) : Int) % 256) = (((n / 2 ^ k) % 256 : Nat) : Int) := by
      push_cast
      rfl
    rw [this, Int.toNat_ofNat]
  rw [h]
  show (BitVec.ofNat 8 _).toNat = (BitVec.ofNat 8 _).toNat
  simp

theorem toByte_natCast (n : Nat) : toByte (n : Int) = n.toUInt8 := by
  have := toByte_natCast_shift n 0
  simpa using this

theorem uint32_toNat_shiftRight_6 (v : UInt32) : (v >>> 6).toNat = v.toNat >>> 6 := by
  show (v.toBitVec >>> (6 : Nat)).toNat = _
  rw [BitVec.toNat_ushiftRight]
  rfl
theorem uint32_toNat_shiftRight_12 (v : UInt32) : (v >>> 12).toNat = v.toNat >>> 12 := by
  show (v.toBitVec >>> (12 : Nat)).toNat = _
  rw [BitVec.toNat_ushiftRight]
  rfl
theorem uint32_toNat_shiftRight_18 (v : UInt32) : (v >>> 18).toNat = v.toNat >>> 18 := by
  show (v.toBitVec >>> (18 : Nat)).toNat = _
  rw [BitVec.toNat_ushiftRight]
  rfl

theorem t2_lor_toUInt8 (k : Nat) (hk : k < 32) :
    (0xC0 : UInt8) ||| k.toUInt8 = k.toUInt8 &&& 0x1f ||| 0xc0 := by
  interval_cases k <;> decide
theorem t3_lor_toUInt8 (k : Nat) (hk : k < 16) :
    (0xE0 : UInt8) ||| k.toUInt8 = k.toUInt8 &&& 0x0f ||| 0xe0 := by
  interval_cases k <;> decide
theorem t4_lor_toUInt8 (k : Nat) (hk : k < 8) :
    (0xF0 : UInt8) ||| k.toUInt8 = k.toUInt8 &&& 0x07 ||| 0xf0 := by
  interval_cases k <;> decide

theorem toUint32_natCast (n : Nat) (h : n < 4294967296) : toUint32 (n : Int) = n := by
  unfold toUint32
  omega

theorem uint32_le_lit_iff (v : UInt32) (k : Nat) (hk : k < 4294967296) :
    v ≤ UInt32.ofNat k ↔ v.toNat ≤ k := by
  rw [UInt32.le_def, BitVec.le_def]
  show v.toNat ≤ (BitVec.ofNat 32 k).toNat ↔ _
  rw [BitVec.toNat_ofNat, Nat.mod_eq_of_lt (by simpa using hk)]

theorem WriteRune_char (buf : TrackedBuffer) (c : Char) :
    TrackedBuffer.WriteRune buf (c.toNat : Int) = buf ++ String.utf8EncodeChar c := by
  have hvalid := c.valid
  simp only [UInt32.isValidChar, Nat.isValidChar] at hvalid
  have hn : c.val.toNat = c.toNat := rfl
  rw [hn] at hvalid
  have hlt : c.toNat < 4294967296 := by omega
  have h7f : c.val ≤ 0x7f ↔ c.toNat ≤ 0x7f := uint32_le_lit_iff c.val 0x7f (by decide)
  have h7ff : c.val ≤ 0x7ff ↔ c.toNat ≤ 0x7ff := uint32_le_lit_iff c.val 0x7ff (by decide)
  have hffff : c.val ≤ 0xffff ↔ c.toNat ≤ 0xffff := uint32_le_lit_iff c.val 0xffff (by decide)
  have hl0 : c.val.toUInt8 = (c.toNat >>> 0).toUInt8 := rfl
  have hl6 : (c.val >>> 6).toUInt8 = (c.toNat >>> 6).toUInt8 := by
    unfold UInt32.toUInt8; rw [uint32_toNat_shiftRight_6]; rfl
  have hl12 : (c.val >>> 12).toUInt8 = (c.toNat >>> 12).toUInt8 := by
    unfold UInt32.toUInt8; rw [uint32_toNat_shiftRight_12]; rfl
  have hl18 : (c.val >>> 18).toUInt8 = (c.toNat >>> 18).toUInt8 := by
    unfold UInt32.toUInt8; rw [uint32_toNat_shiftRight_18]; rfl
  have hb0 : toByte (c.toNat : Int) = (c.toNat >>> 0).toUInt8 := toByte_natCast _
  have s6 : c.toNat >>> 6 = c.toNat / 64 := Nat.shiftRight_eq_div_pow _ 6
  have s12 : c.toNat >>> 12 = c.toNat / 4096 := Nat.shiftRight_eq_div_pow _ 12
  have s18 : c.toNat >>> 18 = c.toNat / 262144 := Nat.shiftRight_eq_div_pow _ 18
  unfold TrackedBuffer.WriteRune AppendRune String.utf8EncodeChar
  simp only [toUint32_natCast _ hlt, rune1Max, rune2Max, rune3Max, MaxRune, surrogateMin,
    surrogateMax, h7f, h7ff, hffff, TrackedBuffer.WriteByte, hb0, toByte_natCast_shift,
    hl0, hl6, hl12, hl18, tx, t2, t3, t4, maskx]
  by_cases c1 : c.toNat ≤ 0x7f
  · rw [if_pos (by omega), if_pos c1]
  · rw [if_neg (by omega), if_neg c1, if_neg c1]
    by_cases c2 : c.toNat ≤ 0x7ff
    · rw [if_pos c2, if_pos c2, t2_lor_toUInt8 _ (by omega), uint8_lor_comm 128]
    · rw [if_neg c2, if_neg c2, if_neg (by omega)]
      by_cases c3 : c.toNat ≤ 0xffff
      · rw [if_pos c3, if_pos c3, t3_lor_toUInt8 _ (by omega), uint8_lor_comm 128,
          uint8_lor_comm 128 ((c.toNat >>> 0).toUInt8 &&& 63)]
      · rw [if_neg c3, if_neg c3, t4_lor_toUInt8 _ (by omega), uint8_lor_comm 128,
          uint8_lor_comm 128 ((c.toNat >>> 6).toUInt8 &&& 63),
          uint8_lor_comm 128 ((c.toNat >>> 0).toUInt8 &&& 63)]

theorem toNat_ofNat_of_valid (n : Nat) (h : n.isValidChar) : (Char.ofNat n).toNat = n := by
  unfold Char.ofNat
  rw [dif_pos h]
  rfl

theorem WriteRune_scalar (buf : TrackedBuffer) (r : Int) (h : isScalarValue r = true) :
    TrackedBuffer.WriteRune buf r = buf ++ utf8Encoding r := by
  simp only [isScalarValue, decide_eq_true_eq] at h
  have hv : r.toNat.isValidChar := by
    simp only [Nat.isValidChar]
    omega
  have hr : r = ((Char.ofNat r.toNat).toNat : Int) := by
    rw [toNat_ofNat_of_valid _ hv]
    omega
  unfold utf8Encoding
  rw [← WriteRune_char, ← hr]

theorem WriteRune_invalid (buf : TrackedBuffer) (r : Int) (hlo : -2147483648 ≤ r)
    (hhi : r < 2147483648) (h : isScalarValue r = false) :
    TrackedBuffer.WriteRune buf r = buf ++ [0xEF, 0xBF, 0xBD] := by
  simp only [isScalarValue, decide_eq_false_iff_not] at h
  have hu : toUint32 r = (if r < 0 then r + 4294967296 else r).toNat := by
    unfold toUint32
    split_ifs <;> omega
  unfold TrackedBuffer.WriteRune AppendRune
  simp only [hu, rune1Max, rune2Max, rune3Max, MaxRune, surrogateMin, surrogateMax]
  by_cases hneg : r < 0
  · rw [if_pos hneg, if_neg (by omega), if_neg (by omega), if_neg (by omega), if_pos (by omega)]
    rfl
  · rw [if_neg hneg, if_neg (by omega), if_neg (by omega), if_neg (by omega), if_pos (by omega)]
    rfl

/-- C7, as amended: char-literal.  For every byte `b`, `Myprintf("%c", b)`
appends exactly the one byte `b`.  For every rune `r` (a 32-bit signed
integer) that is a Unicode scalar value, `Myprintf("%c", r)` appends exactly
the UTF-8 encoding of `r`; for every other rune (a surrogate, a value above
`0x10FFFF`, a negative value) it appends the three bytes `EF BF BD`, the
encoding of `U+FFFD`. -/
theorem Myprintf_char_literal (buf : TrackedBuffer) (b : UInt8) (r : Int)
    (hlo : -2147483648 ≤ r) (hhi : r < 2147483648) :
    Myprintf buf (goString "%c") [Value.byte b] = .ok (buf ++ [b]) ∧
    Myprintf buf (goString "%c") [Value.rune r]
      = .ok (buf ++ if isScalarValue r then utf8Encoding r else [0xEF, 0xBF, 0xBD]) := by
  refine ⟨?_, ?_⟩
  · rw [Myprintf_eq_scan, goString_percent_c, Myprintf.scan_percent, Myprintf.directive_c]
    rfl
  · rw [Myprintf_eq_scan, goString_percent_c, Myprintf.scan_percent, Myprintf.directive_c]
    simp only [List.getElem?_cons_zero, Result.andThen, Myprintf.scan]
    congr 1
    cases h : isScalarValue r with
    | true => simpa using WriteRune_scalar buf r h
    | false => simpa using WriteRune_invalid buf r hlo hhi h

/-- C7 at the byte `0xFF` and the rune `U+20AC`: `%c` appends `FF`, and
`E2 82 AC` for the rune. -/
theorem Myprintf_char_literal_witness :
    ((-2147483648 : Int) ≤ 0x20AC ∧ (0x20AC : Int) < 2147483648) ∧
    Myprintf [] (goString "%c") [Value.byte 0xFF] = .ok [0xFF] ∧
    Myprintf [] (goString "%c") [Value.rune 0x20AC] = .ok [0xE2, 0x82, 0xAC] :=
  ⟨⟨by decide, by decide⟩, Myprintf_char_literal [] 0xFF 0x20AC (by decide) (by decide)⟩

/-- C7 as stated fails at the rune `0xD800`, a 32-bit signed integer that is a
surrogate: no character has this value, and `Myprintf("%c", r)` appends
`EF BF BD`, the same bytes as for the rune `0xFFFD`. -/
theorem Myprintf_char_literal_counterexample :
    ((-2147483648 : Int) ≤ 0xD800 ∧ (0xD800 : Int) < 2147483648) ∧
    Myprintf [] (goString "%c") [Value.rune 0xD800] = .ok [0xEF, 0xBF, 0xBD] ∧
    Myprintf [] (goString "%c") [Value.rune 0xFFFD] = .ok [0xEF, 0xBF, 0xBD] ∧
    ¬ ∃ c : Char, (c.toNat : Int) = 0xD800 := by
  refine ⟨⟨by decide, by decide⟩, by decide, by decide, ?_⟩
  rintro ⟨c, hc⟩
  have hvalid := c.valid
  simp only [UInt32.isValidChar, Nat.isValidChar] at hvalid
  have hn : c.val.toNat = c.toNat := rfl
  omega

/-! ## Chained calls and reuse of a buffer -/

theorem WriteNode_eq_Format (buf : TrackedBuffer) (node : SQLNode) :
    WriteNode buf node = node.Format buf := by
  rw [WriteNode_def, Myprintf_eq_scan, goString_percent_v, Myprintf.scan_percent,
    Myprintf.directive_v]
  simp only [List.getElem?_cons_zero]
  cases node.Format buf <;> rfl

theorem Result.isOk_prepend (pre : TrackedBuffer) (r : Result) :
    (r.prepend pre).isOk = r.isOk := by
  cases r <;> rfl

/-- C11, as amended: chained calls.  `WriteNode` returns its receiver, so for
all nodes `a` and `b` such that `buf.WriteNode(a)` returns, the second call of
`buf.WriteNode(a).WriteNode(b)` appends to what the first left: the buffer
ends as its initial content followed by the rendering of `a` followed by the
rendering of `b`, and the chain panics exactly when rendering `b` does. -/
theorem WriteNode_chained (buf : TrackedBuffer) (a b : SQLNode)
    (ha : (WriteNode buf a).isOk = true) :
    (WriteNode2 buf a b).buf = buf ++ (a.Format []).buf ++ (b.Format []).buf ∧
    (WriteNode2 buf a b).fault = (b.Format []).fault ∧
    ((b.Format []).isOk = true →
      WriteNode2 buf a b = .ok (buf ++ (a.Format []).buf ++ (b.Format []).buf)) := by
  rw [WriteNode_eq_Format, SQLNode.Format_eq_prepend, Result.isOk_prepend] at ha
  have h1 : WriteNode buf a = .ok (buf ++ (a.Format []).buf) := by
    rw [WriteNode_eq_Format, SQLNode.Format_of_isOk a ha]
  have h2 : WriteNode2 buf a b = (b.Format []).prepend (buf ++ (a.Format []).buf) := by
    unfold WriteNode2
    rw [h1, Result.andThen_ok, WriteNode_eq_Format, SQLNode.Format_eq_prepend]
  refine ⟨?_, ?_, ?_⟩
  · rw [h2, Result.buf_prepend]
  · rw [h2, Result.fault_prepend]
  · intro hb
    rw [h2, Result.eq_ok_of_isOk _ hb]
    rfl

/-- C11 at nodes rendering `SELECT 1` and `;` on a buffer holding `-- `: the
chain leaves `-- SELECT 1;`. -/
theorem WriteNode_chained_witness :
    (WriteNode (goString "-- ") (SQLNode.mk "Select" [(goString "SELECT %s",
        [Value.string (goString "1")])])).isOk = true ∧
    (WriteNode2 (goString "-- ")
        (SQLNode.mk "Select" [(goString "SELECT %s", [Value.string (goString "1")])])
        (SQLNode.mk "Semi" [(goString ";", [])])).buf = goString "-- SELECT 1;" :=
  ⟨by decide,
    (WriteNode_chained (goString "-- ")
      (SQLNode.mk "Select" [(goString "SELECT %s", [Value.string (goString "1")])])
      (SQLNode.mk "Semi" [(goString ";", [])]) (by decide)).1⟩

/-- C11 as stated fails at a node `a` whose `Format` panics after writing `x`
(its template is `x%d`) and a node `b` rendering `;`, on a buffer holding
`-- `: the first call panics, the second is never made, and the buffer is left
as `-- x`, not as `-- x;`. -/
theorem WriteNode_chained_counterexample :
    WriteNode2 (goString "-- ") (SQLNode.mk "Bad" [(goString "x%d", [])])
        (SQLNode.mk "Semi" [(goString ";", [])])
      = .panic (goString "-- x") .unexpected ∧
    ((SQLNode.mk "Bad" [(goString "x%d", [])]).Format []).buf = goString "x" ∧
    ((SQLNode.mk "Semi" [(goString ";", [])]).Format []).buf = goString ";" ∧
    (WriteNode2 (goString "-- ") (SQLNode.mk "Bad" [(goString "x%d", [])])
        (SQLNode.mk "Semi" [(goString ";", [])])).buf
      ≠ goString "-- " ++ ((SQLNode.mk "Bad" [(goString "x%d", [])]).Format []).buf
          ++ ((SQLNode.mk "Semi" [(goString ";", [])]).Format []).buf := by
  decide

/-- C12: reuse is stateless apart from the accumulated text.  For every
template, argument list and buffer content `B`, `Myprintf` on a buffer holding
`B` does what it does on an empty buffer, with `B` in front: the appended text
is the same, and it panics in the same cases with the same panic value. -/
theorem Myprintf_stateless_reuse (B : TrackedBuffer) (format : List UInt8) (values : List Value) :
    Myprintf B format values = (Myprintf [] format values).prepend B ∧
    (Myprintf B format values).buf = B ++ (Myprintf [] format values).buf ∧
    (Myprintf B format values).fault = (Myprintf [] format values).fault := by
  have h : Myprintf B format values = (Myprintf [] format values).prepend B := by
    have := Myprintf_prepend B [] format values
    rwa [List.append_nil] at this
  exact ⟨h, by rw [h, Result.buf_prepend], by rw [h, Result.fault_prepend]⟩

/-- C17: dangling marker.  When the template ends in `%` and the part `pre`
before it renders with the arguments, leaving `b`, `Myprintf` panics with the
bounds error of `format[i]` at `i = len(format)`; the buffer holds `b`, so the
`%` is not written, and the panic does not depend on which arguments are left:
none is read for it. -/
theorem Myprintf_dangling_marker (buf b : TrackedBuffer) (pre : List UInt8)
    (values : List Value) (hpre : Myprintf buf pre values = .ok b) :
    Myprintf buf (pre ++ ['%'.toUInt8]) values
      = .panic b (.formatIndex (pre.length + 1) (pre.length + 1)) := by
  rw [Myprintf_append_ok buf b pre _ values hpre, Myprintf.scan_dangling]
  simp

/-- C17 at `a%sb%` with the single argument `x`: the panic is the bounds error
at index 5 of a template of length 5, with `axb` in the buffer. -/
theorem Myprintf_dangling_marker_witness :
    Myprintf [] (goString "a%sb") [Value.string (goString "x")] = .ok (goString "axb") ∧
    Myprintf [] (goString "a%sb%") [Value.string (goString "x")]
      = .panic (goString "axb") (.formatIndex 5 5) :=
  ⟨by decide,
    Myprintf_dangling_marker [] (goString "axb") (goString "a%sb")
      [Value.string (goString "x")] (by decide)⟩

/-! ## The directive set and the type faults -/

/-- C13: a type fault names the offending type.  When the scan reaches `%c` or
`%s` (the part `pre` before it rendered, leaving `b`) and the argument is of
a kind the marker does not expect, the panic value is the string
`"unexpected TrackedBuffer type "` followed by the name of the argument's
dynamic type; for `%v` and `%a` it is the failed type assertion, which carries
the name of the argument's dynamic type and the asserted type. -/
theorem Myprintf_type_fault_names_type (buf b : TrackedBuffer) (pre rest : List UInt8)
    (values : List Value) (c : UInt8) (v : Value)
    (hpre : Myprintf buf pre values = .ok b)
    (hv : values[markers pre]? = some v)
    (hkind : expects c v = false) :
    (c = 'c'.toUInt8 ∨ c = 's'.toUInt8 →
      Myprintf buf (pre ++ '%'.toUInt8 :: c :: rest) values
        = .panic b (.unexpectedType v.typeName) ∧
      (Fault.unexpectedType v.typeName).panicString
        = some ("unexpected TrackedBuffer type " ++ v.typeName)) ∧
    (c = 'v'.toUInt8 →
      Myprintf buf (pre ++ '%'.toUInt8 :: c :: rest) values
        = .panic b (.typeAssertion v.typeName "parser.SQLNode")) ∧
    (c = 'a'.toUInt8 →
      Myprintf buf (pre ++ '%'.toUInt8 :: c :: rest) values
        = .panic b (.typeAssertion v.typeName "string")) := by
  rw [Myprintf_append_ok buf b pre _ values hpre, Myprintf.scan_percent]
  refine ⟨?_, ?_, ?_⟩
  · rintro (rfl | rfl)
    · rw [Myprintf.directive_c, hv]
      rw [expects_c] at hkind
      cases v <;> simp at hkind <;> exact ⟨rfl, rfl⟩
    · rw [Myprintf.directive_s, hv]
      rw [expects_s] at hkind
      cases v <;> simp at hkind <;> exact ⟨rfl, rfl⟩
  · rintro rfl
    rw [Myprintf.directive_v, hv]
    rw [expects_v] at hkind
    cases v <;> simp at hkind <;> rfl
  · rintro rfl
    rw [Myprintf.directive_a, hv]
    rw [expects_a] at hkind
    cases v <;> simp at hkind <;> rfl

/-- C13 at `n=%s` with an integer argument: the panic string is
`unexpected TrackedBuffer type int`. -/
theorem Myprintf_type_fault_names_type_witness :
    (Myprintf [] (goString "n=") [Value.other "int"] = .ok (goString "n=") ∧
      [Value.other "int"][markers (goString "n=")]? = some (Value.other "int") ∧
      expects 's'.toUInt8 (Value.other "int") = false) ∧
    Myprintf [] (goString "n=%s") [Value.other "int"]
      = .panic (goString "n=") (.unexpectedType "int") ∧
    (Fault.unexpectedType "int").panicString = some "unexpected TrackedBuffer type int" :=
  ⟨⟨by decide, rfl, by decide⟩,
    (Myprintf_type_fault_names_type [] (goString "n=") (goString "n=") []
      [Value.other "int"] 's'.toUInt8 (Value.other "int") (by decide) rfl (by decide)).1
      (Or.inr rfl)⟩

/-- C15: the doc comment of `Myprintf` limits it to `%v`, `%s` and `%a`, so that
`%x` for any other character `x` should make it panic.  At `x = c`, which is
none of `v`, `s`, `a`, the code does not: `Myprintf("%c", byte(','))` takes
the `case 'c'` of the switch, appends the byte and returns normally. -/
theorem Myprintf_percent_c_returns :
    ('c'.toUInt8 ≠ 'v'.toUInt8 ∧ 'c'.toUInt8 ≠ 's'.toUInt8 ∧ 'c'.toUInt8 ≠ 'a'.toUInt8) ∧
    Myprintf [] (goString "%c") [Value.byte ','.toUInt8] = .ok (goString ",") ∧
    (Myprintf [] (goString "%c") [Value.byte ','.toUInt8]).isOk = true := by
  decide

theorem Myprintf_unsupported_panics (x : UInt8) (hx : x ∉ supported) (buf : TrackedBuffer)
    (values : List Value) :
    Myprintf buf ['%'.toUInt8, x] values = .panic buf .unexpected := by
  simp only [supported, List.mem_cons, List.mem_singleton, List.not_mem_nil, or_false,
    not_or] at hx
  rw [Myprintf_eq_scan, Myprintf.scan_percent,
    Myprintf.directive_unsupported _ x hx.1 hx.2.1 hx.2.2.1 hx.2.2.2]
  rfl

theorem Myprintf_supported_accepted (x : UInt8) (hx : x ∈ supported) :
    ∃ v, (Myprintf [] ['%'.toUInt8, x] [v]).isOk = true := by
  simp only [supported, List.mem_cons, List.mem_singleton, List.not_mem_nil, or_false] at hx
  rcases hx with rfl | rfl | rfl | rfl
  · exact ⟨Value.byte 0, by decide⟩
  · exact ⟨Value.string [], by decide⟩
  · exact ⟨Value.node (SQLNode.mk "Node" []), by decide⟩
  · exact ⟨Value.string [], by decide⟩

theorem Myprintf_accepted_supported (x : UInt8) (v : Value)
    (h : (Myprintf [] ['%'.toUInt8, x] [v]).isOk = true) : x ∈ supported := by
  by_contra hx
  rw [Myprintf_unsupported_panics x hx] at h
  simp [Result.isOk] at h

/-- C14, as amended: the directive mini-language has exactly four markers.
The characters `x` for which the directive `%x` is accepted by `Myprintf` for
some argument are exactly `c`, `s`, `v` and `a`, four distinct characters, and
every other character after `%` is the unsupported-directive fault, whatever
the arguments. -/
theorem Myprintf_directive_set :
    (∀ x : UInt8, (∃ v, (Myprintf [] ['%'.toUInt8, x] [v]).isOk = true) ↔ x ∈ supported) ∧
    supported.Nodup ∧ supported.length = 4 ∧
    (∀ x : UInt8, x ∉ supported → ∀ (buf : TrackedBuffer) (values : List Value),
      Myprintf buf ['%'.toUInt8, x] values = .panic buf .unexpected) := by
  refine ⟨fun x => ⟨?_, Myprintf_supported_accepted x⟩, by decide, by decide,
    fun x hx buf values => Myprintf_unsupported_panics x hx buf values⟩
  rintro ⟨v, hv⟩
  exact Myprintf_accepted_supported x v hv

/-- C14 as stated fails: there are no five distinct characters `x` for which
`%x` is accepted by `Myprintf`, whatever argument it is given. -/
theorem Myprintf_directive_set_counterexample :
    ¬ ∃ l : List UInt8, l.Nodup ∧ l.length = 5 ∧
      ∀ x ∈ l, ∃ v, (Myprintf [] ['%'.toUInt8, x] [v]).isOk = true := by
  rintro ⟨l, hnodup, hlen, hacc⟩
  have hsub : l ⊆ supported := by
    intro x hx
    obtain ⟨v, hv⟩ := hacc x hx
    exact Myprintf_accepted_supported x v hv
  have hle := (List.Nodup.subperm hnodup hsub).length_le
  rw [hlen] at hle
  simp [supported] at hle

/-! ## Arguments beyond the markers -/

theorem Myprintf.directive_values_congr (f : SQLNode → TrackedBuffer → Result) (c : UInt8)
    (values values2 : List Value) (fieldnum : Nat) (buf : TrackedBuffer) (v : Value)
    (h1 : values[fieldnum]? = some v) (h2 : values2[fieldnum]? = some v) :
    Myprintf.directive f c values fieldnum buf = Myprintf.directive f c values2 fieldnum buf := by
  unfold Myprintf.directive
  rw [h1, h2]
  cases v <;> rfl

theorem Myprintf.scan_values_congr (f : SQLNode → TrackedBuffer → Result) (len : Nat)
    (values values2 : List Value) (format : List UInt8) (fieldnum : Nat) (buf : TrackedBuffer)
    (h : ∀ k, fieldnum ≤ k → k < fieldnum + markers format →
      ∃ v, values[k]? = some v ∧ values2[k]? = some v) :
    Myprintf.scan f len values format fieldnum buf
      = Myprintf.scan f len values2 format fieldnum buf := by
  induction format using list_two_step generalizing fieldnum buf with
  | nil => simp [Myprintf.scan]
  | single c => simp [Myprintf.scan]
  | step c d rest ih1 ih2 =>
    by_cases hc : c = '%'.toUInt8
    · have hmark : markers (c :: d :: rest) = markers rest + 1 := by simp [markers, hc]
      rw [hmark] at h
      obtain ⟨v, hv1, hv2⟩ := h fieldnum (Nat.le_refl _) (by omega)
      have hk : Myprintf.scan f len values rest (fieldnum + 1)
          = Myprintf.scan f len values2 rest (fieldnum + 1) := by
        funext b
        exact ih2 _ _ (fun k h1 h2 => h k (by omega) (by omega))
      rw [hc, Myprintf.scan_percent, Myprintf.scan_percent,
        Myprintf.directive_values_congr f d values values2 fieldnum buf v hv1 hv2, hk]
    · have hmark : markers (c :: d :: rest) = markers (d :: rest) := by simp [markers, hc]
      rw [hmark] at h
      rw [Myprintf.scan_cons_literal _ _ _ _ hc, Myprintf.scan_cons_literal _ _ _ _ hc]
      exact ih1 _ _ h

theorem Myprintf_values_congr (buf : TrackedBuffer) (format : List UInt8)
    (values values2 : List Value)
    (h : ∀ k, k < markers format → ∃ v, values[k]? = some v ∧ values2[k]? = some v) :
    Myprintf buf format values = Myprintf buf format values2 := by
  rw [Myprintf_eq_scan, Myprintf_eq_scan]
  exact Myprintf.scan_values_congr _ _ _ _ _ _ _ (fun k _ hk => h k (by omega))

theorem Myprintf_append_values (buf : TrackedBuffer) (format : List UInt8)
    (values extra : List Value) (h : markers format ≤ values.length) :
    Myprintf buf format (values ++ extra) = Myprintf buf format values := by
  apply Myprintf_values_congr
  intro k hk
  have hk2 : k < values.length := by omega
  exact ⟨values[k], by rw [List.getElem?_append_left hk2, List.getElem?_eq_getElem hk2],
    List.getElem?_eq_getElem hk2⟩

theorem Myprintf_take_values (buf : TrackedBuffer) (format : List UInt8)
    (values : List Value) (h : markers format ≤ values.length) :
    Myprintf buf format values = Myprintf buf format (values.take (markers format)) := by
  apply Myprintf_values_congr
  intro k hk
  have hk2 : k < values.length := by omega
  exact ⟨values[k], List.getElem?_eq_getElem hk2,
    by rw [List.getElem?_take_of_lt hk, List.getElem?_eq_getElem hk2]⟩

/-- C18: surplus arguments are ignored.  For every template with `m` markers
and every argument list of length at least `m`, the result of `Myprintf`
(the buffer content and, if it panics, the panic value) is that for the first
`m` arguments alone: appending further arguments of any type changes nothing,
and two argument lists that agree on their first `m` arguments give the same
result. -/
theorem Myprintf_surplus_arguments (buf : TrackedBuffer) (format : List UInt8)
    (values extra values2 : List Value)
    (h : markers format ≤ values.length) (h2 : markers format ≤ values2.length)
    (heq : values2.take (markers format) = values.take (markers format)) :
    Myprintf buf format (values ++ extra) = Myprintf buf format values ∧
    Myprintf buf format values = Myprintf buf format (values.take (markers format)) ∧
    Myprintf buf format values2 = Myprintf buf format values := by
  refine ⟨Myprintf_append_values buf format values extra h,
    Myprintf_take_values buf format values h, ?_⟩
  rw [Myprintf_take_values buf format values h, Myprintf_take_values buf format values2 h2, heq]

/-- C18 at `%s=%c` with `k`, `v` and three surplus arguments, among them a
node and a value of another type: the result is that for `k` and `v` alone. -/
theorem Myprintf_surplus_arguments_witness :
    (markers (goString "%s=%c") ≤ [Value.string (goString "k"), Value.byte 'v'.toUInt8].length ∧
      markers (goString "%s=%c") ≤ [Value.string (goString "k"), Value.byte 'v'.toUInt8,
        Value.other "int"].length) ∧
    Myprintf [] (goString "%s=%c") ([Value.string (goString "k"), Value.byte 'v'.toUInt8] ++
        [Value.other "int", Value.node (SQLNode.mk "Node" [(goString "%d", [])]), Value.rune 37])
      = Myprintf [] (goString "%s=%c") [Value.string (goString "k"), Value.byte 'v'.toUInt8] ∧
    Myprintf [] (goString "%s=%c") [Value.string (goString "k"), Value.byte 'v'.toUInt8]
      = .ok (goString "k=v") :=
  ⟨⟨by decide, by decide⟩,
    (Myprintf_surplus_arguments [] (goString "%s=%c")
      [Value.string (goString "k"), Value.byte 'v'.toUInt8]
      [Value.other "int", Value.node (SQLNode.mk "Node" [(goString "%d", [])]), Value.rune 37]
      [Value.string (goString "k"), Value.byte 'v'.toUInt8, Value.other "int"]
      (by decide) (by decide) rfl).1,
    by decide⟩

/-! ## Concatenation of templates -/

theorem Result.andThen_eraseIndex (r1 r2 : Result) (k1 k2 : TrackedBuffer → Result)
    (hr : r1.eraseIndex = r2.eraseIndex) (hk : ∀ b, (k1 b).eraseIndex = (k2 b).eraseIndex) :
    (r1.andThen k1).eraseIndex = (r2.andThen k2).eraseIndex := by
  cases r1 with
  | ok b1 =>
    cases r2 with
    | ok b2 =>
      simp only [Result.eraseIndex, Result.ok.injEq] at hr
      rw [hr]
      exact hk b2
    | panic b2 f2 => simp [Result.eraseIndex] at hr
  | panic b1 f1 =>
    cases r2 with
    | ok b2 => simp [Result.eraseIndex] at hr
    | panic b2 f2 => exact hr

theorem Result.buf_eraseIndex (r : Result) : r.eraseIndex.buf = r.buf := by
  cases r <;> rfl

theorem Result.isOk_eraseIndex (r : Result) : r.eraseIndex.isOk = r.isOk := by
  cases r <;> rfl

theorem Myprintf.directive_shift (f : SQLNode → TrackedBuffer → Result) (c : UInt8)
    (pre vs : List Value) (j : Nat) (buf : TrackedBuffer) :
    (Myprintf.directive f c (pre ++ vs) (pre.length + j) buf).eraseIndex
      = (Myprintf.directive f c vs j buf).eraseIndex := by
  have hget : (pre ++ vs)[pre.length + j]? = vs[j]? := by
    rw [List.getElem?_append_right (Nat.le_add_right _ _), Nat.add_sub_cancel_left]
  unfold Myprintf.directive
  rw [hget]
  cases hv : vs[j]? with
  | none => split_ifs <;> rfl
  | some v => cases v <;> rfl

theorem Myprintf.scan_shift (f : SQLNode → TrackedBuffer → Result) (len1 len2 : Nat)
    (pre vs : List Value) (format : List UInt8) (j : Nat) (buf : TrackedBuffer) :
    (Myprintf.scan f len1 (pre ++ vs) format (pre.length + j) buf).eraseIndex
      = (Myprintf.scan f len2 vs format j buf).eraseIndex := by
  induction format using list_two_step generalizing j buf with
  | nil => simp [Myprintf.scan]
  | single c =>
    by_cases hc : c = '%'.toUInt8 <;> simp [Myprintf.scan, hc, Result.eraseIndex, Fault.eraseIndex]
  | step c d rest ih1 ih2 =>
    by_cases hc : c = '%'.toUInt8
    · rw [hc, Myprintf.scan_percent, Myprintf.scan_percent]
      exact Result.andThen_eraseIndex _ _ _ _ (Myprintf.directive_shift f d pre vs j buf)
        (fun b => ih2 (j + 1) b)
    · rw [Myprintf.scan_cons_literal _ _ _ _ hc, Myprintf.scan_cons_literal _ _ _ _ hc]
      exact ih1 _ _

theorem Myprintf_concat_eraseIndex (buf b1 : TrackedBuffer) (t1 t2 : List UInt8)
    (a1 a2 : List Value) (hm : markers t1 = a1.length) (h1 : Myprintf buf t1 a1 = .ok b1) :
    (Myprintf buf (t1 ++ t2) (a1 ++ a2)).eraseIndex = (Myprintf b1 t2 a2).eraseIndex := by
  have h1x : Myprintf buf t1 (a1 ++ a2) = .ok b1 := by
    rw [Myprintf_append_values buf t1 a1 a2 (by omega), h1]
  rw [Myprintf_append_ok buf b1 t1 t2 _ h1x, hm, Myprintf_eq_scan]
  exact Myprintf.scan_shift _ _ _ a1 a2 t2 0 b1

/-- C19: template concatenation is sequential composition.  When `t1` has
exactly `len(a1)` markers and `Myprintf(t1, a1)` succeeds, `Myprintf(t1 ++ t2,
a1 ++ a2)` and `Myprintf(t1, a1)` followed by `Myprintf(t2, a2)` leave the
same buffer content, return normally in the same cases, and panic with the
same fault; the faults are equal up to the index and length numbers a bounds
error reports, which count from the start of the concatenated template and
argument list. -/
theorem Myprintf_concat (buf : TrackedBuffer) (t1 t2 : List UInt8) (a1 a2 : List Value)
    (hm : markers t1 = a1.length) (h1 : (Myprintf buf t1 a1).isOk = true) :
    (Myprintf buf (t1 ++ t2) (a1 ++ a2)).eraseIndex
      = ((Myprintf buf t1 a1).andThen (fun b => Myprintf b t2 a2)).eraseIndex ∧
    (Myprintf buf (t1 ++ t2) (a1 ++ a2)).buf
      = ((Myprintf buf t1 a1).andThen (fun b => Myprintf b t2 a2)).buf ∧
    (∀ out, Myprintf buf (t1 ++ t2) (a1 ++ a2) = .ok out ↔
      (Myprintf buf t1 a1).andThen (fun b => Myprintf b t2 a2) = .ok out) := by
  have hok := Result.eq_ok_of_isOk _ h1
  have key := Myprintf_concat_eraseIndex buf _ t1 t2 a1 a2 hm hok
  have hseq : (Myprintf buf t1 a1).andThen (fun b => Myprintf b t2 a2)
      = Myprintf (Myprintf buf t1 a1).buf t2 a2 := by
    rw [hok]
    rfl
  rw [hseq]
  refine ⟨key, ?_, ?_⟩
  · rw [← Result.buf_eraseIndex, key, Result.buf_eraseIndex]
  · intro out
    cases hA : Myprintf buf (t1 ++ t2) (a1 ++ a2) <;>
      cases hB : Myprintf (Myprintf buf t1 a1).buf t2 a2 <;>
      rw [hA, hB] at key <;> simp [Result.eraseIndex] at key ⊢
    rw [key]

/-- C19 at `a=%s` ++ `, b=%c%s` with arguments `x` and `y`: both ways panic at
the missing last argument with `a=x, b=y` in the buffer; the bounds error
reports index 2 of 2 in the one call and index 1 of 1 in the two calls. -/
theorem Myprintf_concat_witness :
    (markers (goString "a=%s") = [Value.string (goString "x")].length ∧
      (Myprintf [] (goString "a=%s") [Value.string (goString "x")]).isOk = true) ∧
    (Myprintf [] (goString "a=%s" ++ goString ", b=%c%s")
        ([Value.string (goString "x")] ++ [Value.byte 'y'.toUInt8])).eraseIndex
      = ((Myprintf [] (goString "a=%s") [Value.string (goString "x")]).andThen
          (fun b => Myprintf b (goString ", b=%c%s") [Value.byte 'y'.toUInt8])).eraseIndex ∧
    Myprintf [] (goString "a=%s, b=%c%s") [Value.string (goString "x"), Value.byte 'y'.toUInt8]
      = .panic (goString "a=x, b=y") (.valuesIndex 2 2) ∧
    (Myprintf [] (goString "a=%s") [Value.string (goString "x")]).andThen
        (fun b => Myprintf b (goString ", b=%c%s") [Value.byte 'y'.toUInt8])
      = .panic (goString "a=x, b=y") (.valuesIndex 1 1) :=
  ⟨⟨by decide, by decide⟩,
    (Myprintf_concat [] (goString "a=%s") (goString ", b=%c%s") [Value.string (goString "x")]
      [Value.byte 'y'.toUInt8] (by decide) (by decide)).1,
    by decide, by decide⟩

/-! ## Termination -/

theorem skipLiteral_ge (format : List UInt8) (i : Nat) :
    i ≤ skipLiteral format (format.length - i) i := by
  rw [skipLiteral_eq format _ i (Nat.le_refl _)]
  exact Nat.le_add_right _ _

theorem skipLiteral_fuel (format : List UInt8) (fuel i : Nat) (h : format.length - i ≤ fuel) :
    skipLiteral format fuel i = skipLiteral format (format.length - i) i := by
  rw [skipLiteral_eq format fuel i h, skipLiteral_eq format _ i (Nat.le_refl _)]

theorem Myprintf.loop_fuel (f : SQLNode → TrackedBuffer → Result) (format : List UInt8)
    (values : List Value) (fuel i fieldnum : Nat) (buf : TrackedBuffer)
    (h : format.length - i ≤ fuel) :
    Myprintf.loop f format values fuel i fieldnum buf
      = Myprintf.loop f format values (format.length - i) i fieldnum buf := by
  rw [Myprintf.loop_eq_scan f format values fuel i fieldnum buf h,
    Myprintf.loop_eq_scan f format values _ i fieldnum buf (Nat.le_refl _)]

theorem SQLNode.child_depth_lt (typeName : String) (calls : List (List UInt8 × List Value))
    (call : List UInt8 × List Value) (hcall : call ∈ calls) (child : SQLNode)
    (hchild : Value.node child ∈ call.2) :
    child.depth < (SQLNode.mk typeName calls).depth := by
  have h1 := depth_le_valuesDepth _ _ hchild
  have h2 := valuesDepth_le_callsDepth _ _ hcall
  simp only [SQLNode.depth]
  omega

theorem skipLiteralB_eq_takeWhile (format : List UInt8) (bound i : Nat)
    (h : format.length - i ≤ bound) :
    skipLiteralB format bound i
      = some (i + ((format.drop i).takeWhile (fun c => c ≠ '%'.toUInt8)).length) := by
  induction bound generalizing i with
  | zero =>
    have hi : format.length ≤ i := by omega
    simp [skipLiteralB, List.drop_eq_nil_of_le hi, Nat.not_lt.mpr hi]
  | succ bound ih =>
    unfold skipLiteralB
    by_cases hi : i < format.length
    · have hd : format.drop i = format[i] :: format.drop (i + 1) := List.drop_eq_getElem_cons hi
      rw [dif_pos hi, hd]
      by_cases hc : format[i] = '%'.toUInt8
      · rw [if_neg (not_not.mpr hc), List.takeWhile_cons]
        simp [hc]
      · rw [if_pos hc, ih (i + 1) (by omega), List.takeWhile_cons]
        simp only [hc, decide_not, decide_False, Bool.not_false, if_true, List.length_cons]
        congr 1
        omega
    · rw [dif_neg hi]
      simp [List.drop_eq_nil_of_le (Nat.le_of_not_lt hi)]

theorem skipLiteralB_eq (format : List UInt8) (bound i : Nat) (h : format.length - i ≤ bound) :
    skipLiteralB format bound i = some (skipLiteral format (format.length - i) i) := by
  rw [skipLiteralB_eq_takeWhile format bound i h, skipLiteral_eq format _ i (Nat.le_refl _)]

theorem length_takeWhile_le_length (p : UInt8 → Bool) (l : List UInt8) :
    (l.takeWhile p).length ≤ l.length := by
  induction l with
  | nil => simp
  | cons c l ih =>
    rw [List.takeWhile_cons]
    split
    · simp only [List.length_cons]
      omega
    · simp

theorem skipLiteral_le (format : List UInt8) (i : Nat) :
    skipLiteral format (format.length - i) i ≤ max i format.length := by
  rw [skipLiteral_eq format _ i (Nat.le_refl _)]
  have h1 := length_takeWhile_le_length (fun c => decide (c ≠ '%'.toUInt8)) (format.drop i)
  rw [List.length_drop] at h1
  have h2 : i ≤ max i format.length := Nat.le_max_left _ _
  have h3 : format.length ≤ max i format.length := Nat.le_max_right _ _
  omega

theorem Myprintf.directiveB_eq (g : SQLNode → TrackedBuffer → Option Result)
    (f : SQLNode → TrackedBuffer → Result) (values : List Value)
    (hg : ∀ n, Value.node n ∈ values → ∀ b, g n b = some (f n b))
    (c : UInt8) (fieldnum : Nat) (buf : TrackedBuffer) :
    Myprintf.directiveB g c values fieldnum buf
      = some (Myprintf.directive f c values fieldnum buf) := by
  unfold Myprintf.directiveB Myprintf.directive
  cases hv : values[fieldnum]? with
  | none => split_ifs <;> rfl
  | some v =>
    have hmem := mem_of_getElem?_eq_some values fieldnum v hv
    cases v with
    | node n =>
      split_ifs <;> first | rfl | exact hg n hmem buf
    | _ => split_ifs <;> rfl

theorem Myprintf.iteration_next (g : SQLNode → TrackedBuffer → Option Result)
    (format : List UInt8) (values : List Value) (i fieldnum : Nat) (buf : TrackedBuffer)
    (i2 fieldnum2 : Nat) (buf2 : TrackedBuffer)
    (h : Myprintf.iteration g format values i fieldnum buf = .next i2 fieldnum2 buf2) :
    i + 2 ≤ i2 ∧ i2 ≤ format.length + 1 ∧ fieldnum2 = fieldnum + 1 := by
  have hskip := skipLiteralB_eq format (format.length - i) i (Nat.le_refl _)
  have hge := skipLiteral_ge format i
  unfold Myprintf.iteration at h
  by_cases hi : i < format.length
  · simp only [hi, if_true, hskip] at h
    generalize skipLiteral format (format.length - i) i = k at hge h
    by_cases hk : k ≥ format.length
    · simp only [hk, if_true] at h
      cases h
    · simp only [hk, if_false] at h
      cases hc : format[k + 1]? with
      | none => simp only [hc] at h; cases h
      | some c =>
        simp only [hc] at h
        split at h
        · cases h
        · simp only [Myprintf.Step.next.injEq] at h
          omega
        · cases h
  · simp only [hi, if_false] at h
    cases h

theorem Myprintf.loopB_eq (g : SQLNode → TrackedBuffer → Option Result)
    (f : SQLNode → TrackedBuffer → Result) (format : List UInt8) (values : List Value)
    (hg : ∀ n, Value.node n ∈ values → ∀ b, g n b = some (f n b))
    (bound i fieldnum : Nat) (buf : TrackedBuffer) (h : format.length - i ≤ bound) :
    Myprintf.loopB g format values bound i fieldnum buf
      = some (Myprintf.loop f format values bound i fieldnum buf) := by
  induction bound generalizing i fieldnum buf with
  | zero =>
    have hi : ¬ i < format.length := by omega
    simp [Myprintf.loopB, Myprintf.iteration, Myprintf.loop, hi]
  | succ bound ih =>
    have hskip := skipLiteralB_eq format (format.length - i) i (Nat.le_refl _)
    have hge := skipLiteral_ge format i
    unfold Myprintf.loopB Myprintf.iteration Myprintf.loop
    by_cases hi : i < format.length
    · simp only [hi, if_true, hskip]
      generalize skipLiteral format (format.length - i) i = k at hge
      by_cases hk : k ≥ format.length
      · simp only [hk, if_true]
      · simp only [hk, if_false]
        cases hc : format[k + 1]? with
        | none => rfl
        | some c =>
          simp only [Myprintf.directiveB_eq g f values hg]
          cases hd : Myprintf.directive f c values fieldnum
              (if k > i then TrackedBuffer.WriteString buf (slice format i k) else buf) with
          | ok b1 =>
            simp only [Result.andThen]
            exact ih _ _ _ (by omega)
          | panic b1 fault => rfl
    · simp only [hi, if_false]

theorem Myprintf.runB_eq (g : SQLNode → TrackedBuffer → Option Result)
    (f : SQLNode → TrackedBuffer → Result) (values : List Value)
    (hg : ∀ n, Value.node n ∈ values → ∀ b, g n b = some (f n b))
    (buf : TrackedBuffer) (format : List UInt8) :
    Myprintf.runB g buf format values = some (Myprintf.run f buf format values) :=
  Myprintf.loopB_eq g f format values hg _ _ _ _ (by omega)

theorem runCallsB_eq (g : TrackedBuffer → List UInt8 → List Value → Option Result)
    (f : TrackedBuffer → List UInt8 → List Value → Result)
    (calls : List (List UInt8 × List Value))
    (hg : ∀ call ∈ calls, ∀ b, g b call.1 call.2 = some (f b call.1 call.2))
    (buf : TrackedBuffer) : runCallsB g calls buf = some (runCalls f calls buf) := by
  induction calls generalizing buf with
  | nil => rfl
  | cons call rest ih =>
    obtain ⟨format, values⟩ := call
    have h1 := hg (format, values) (List.mem_cons_self _ _) buf
    simp only at h1
    simp only [runCallsB, runCalls, h1]
    cases f buf format values with
    | ok b1 => exact ih (fun c hc => hg c (List.mem_cons_of_mem _ hc)) b1
    | panic b1 fault => rfl

theorem SQLNode.FormatB_eq (depth : Nat) (node : SQLNode) (h : node.depth ≤ depth)
    (buf : TrackedBuffer) : SQLNode.FormatB depth node buf = some (node.Format buf) := by
  induction depth generalizing node buf with
  | zero => cases node; simp [SQLNode.depth] at h
  | succ depth ih =>
    obtain ⟨typeName, calls⟩ := node
    rw [SQLNode.Format_mk]
    simp only [SQLNode.FormatB]
    apply runCallsB_eq
    intro call hcall b
    apply Myprintf.runB_eq
    intro child hchild b2
    have hlt := SQLNode.child_depth_lt typeName calls call hcall child hchild
    exact ih child (by omega) b2

theorem MyprintfB_eq (depth : Nat) (buf : TrackedBuffer) (format : List UInt8)
    (values : List Value) (h : valuesDepth values ≤ depth) :
    MyprintfB depth buf format values = some (Myprintf buf format values) := by
  apply Myprintf.runB_eq
  intro n hn b
  have := depth_le_valuesDepth values n hn
  exact SQLNode.FormatB_eq depth n (by omega) b

/-- C16: termination.  For every template, argument list and node tree,
`Myprintf` and `WriteNode` end, returning or panicking.  With `none` standing
for a bound that ran out: the inner loop ends within `end - i` iterations
at an index between `i` and `end`; an iteration of the scan loop that goes on
hands on an index greater than its own by at least two, and never runs out of
a bound itself; the scan loop ends within `end - i` iterations; `Format`
ends within a recursion depth equal to the height of the node tree; so
`Myprintf` and `WriteNode` give a result within those bounds, and it is the
result of the embedding. -/
theorem Myprintf_terminates (buf : TrackedBuffer) (format : List UInt8) (values : List Value)
    (node : SQLNode) (i fieldnum bound depth : Nat)
    (hbound : format.length - i ≤ bound) (hvalues : valuesDepth values ≤ depth)
    (hnode : node.depth ≤ depth) :
    (∃ k, skipLiteralB format bound i = some k ∧ i ≤ k ∧ k ≤ max i format.length) ∧
    (∀ i2 fieldnum2 buf2,
      Myprintf.iteration (SQLNode.FormatB depth) format values i fieldnum buf
          = .next i2 fieldnum2 buf2 →
        i + 2 ≤ i2 ∧ i2 ≤ format.length + 1 ∧ fieldnum2 = fieldnum + 1) ∧
    Myprintf.iteration (SQLNode.FormatB depth) format values i fieldnum buf ≠ .unbounded ∧
    Myprintf.loopB (SQLNode.FormatB depth) format values bound i fieldnum buf
      = some (Myprintf.loop SQLNode.Format format values (format.length - i) i fieldnum buf) ∧
    SQLNode.FormatB depth node buf = some (node.Format buf) ∧
    MyprintfB depth buf format values = some (Myprintf buf format values) ∧
    WriteNodeB depth buf node = some (WriteNode buf node) := by
  have hg : ∀ n, Value.node n ∈ values → ∀ b, SQLNode.FormatB depth n b = some (n.Format b) := by
    intro n hn b
    have := depth_le_valuesDepth values n hn
    exact SQLNode.FormatB_eq depth n (by omega) b
  have hloop := Myprintf.loopB_eq (SQLNode.FormatB depth) SQLNode.Format format values hg
    bound i fieldnum buf hbound
  refine ⟨⟨_, skipLiteralB_eq format bound i hbound, skipLiteral_ge format i,
      skipLiteral_le format i⟩,
    fun i2 fieldnum2 buf2 h => Myprintf.iteration_next _ format values i fieldnum buf _ _ _ h,
    ?_, ?_, SQLNode.FormatB_eq depth node hnode buf, MyprintfB_eq depth buf format values hvalues,
    ?_⟩
  · intro hu
    cases bound <;> simp [Myprintf.loopB, hu] at hloop
  · rw [hloop, Myprintf.loop_fuel _ format values bound i fieldnum buf hbound]
  · have hv : valuesDepth [Value.node node] ≤ depth := by
      simp only [valuesDepth]
      omega
    unfold WriteNodeB
    rw [MyprintfB_eq depth buf _ _ hv]
    rfl

/-- C16 at the template `a%vb%` with a node of height 2: with recursion depth
2 and 5 iterations everything ends, the call panicking at the final `%` with
`a(1)b` in the buffer; with recursion depth 1, or with one iteration for a
template of two markers, a bound runs out. -/
theorem Myprintf_terminates_witness :
    ((goString "a%vb%").length - 0 ≤ 5 ∧
      valuesDepth [Value.node (SQLNode.mk "Paren" [(goString "(%v)",
        [Value.node (SQLNode.mk "Lit" [(goString "1", [])])])])] ≤ 2 ∧
      (SQLNode.mk "Paren" [(goString "(%v)",
        [Value.node (SQLNode.mk "Lit" [(goString "1", [])])])]).depth ≤ 2) ∧
    MyprintfB 2 [] (goString "a%vb%") [Value.node (SQLNode.mk "Paren" [(goString "(%v)",
        [Value.node (SQLNode.mk "Lit" [(goString "1", [])])])])]
      = some (.panic (goString "a(1)b") (.formatIndex 5 5)) ∧
    MyprintfB 1 [] (goString "a%vb%") [Value.node (SQLNode.mk "Paren" [(goString "(%v)",
        [Value.node (SQLNode.mk "Lit" [(goString "1", [])])])])] = none ∧
    Myprintf.loopB (SQLNode.FormatB 0) (goString "%s%s") [Value.string [], Value.string []]
        1 0 0 [] = none :=
  ⟨⟨by decide, by decide, by decide⟩,
    (Myprintf_terminates [] (goString "a%vb%") [Value.node (SQLNode.mk "Paren" [(goString "(%v)",
        [Value.node (SQLNode.mk "Lit" [(goString "1", [])])])])]
      (SQLNode.mk "Paren" [(goString "(%v)",
        [Value.node (SQLNode.mk "Lit" [(goString "1", [])])])]) 0 0 5 2
      (by decide) (by decide) (by decide)).2.2.2.2.2.1,
    by decide, by decide⟩

end Sqldef
